import Mathlib

/-!
Verification development for the Alliance announcement-ingestion backend.

The definitions below are a shallow embedding of the Python sources:
* `src/backend/src/services/announcement_service.py` (reconciliation in
  `fetch_and_save`, date resolution in `_scrape_detail`, staleness parsing in
  `_parse_iso_datetime`, status/highlight keywords),
* `src/backend/src/services/notification_service.py` (`notify`,
  `_filter_by_subscriber`, `_filter_unsent_json`, `_record_sent_json`),
* `src/backend/src/utils/blob_json_store.py` (`save_with_generation`).

Modelling conventions:
* Calendar dates are `Nat` preserving chronological order; `0` encodes the
  Python sentinel `date.min`.  All real extracted dates (year 1900-2030) are
  positive in this encoding.
* Timestamps are `Int` (day resolution suffices for the properties studied).
  A stored timestamp string is modelled by its parse result `Option Int`
  (`none` = the string does not parse as ISO); an absent dict entry is one
  more layer of `Option`.  `datetime.utcnow().isoformat()` round-trips
  through `datetime.fromisoformat`, so writing `now_iso` is modelled as
  writing a parseable timestamp `some now`.
* Python dicts used as announcement records are modelled as a structure with
  the exact field set produced by `_scrape_detail` plus the bookkeeping
  fields `id`, `first_seen`, `last_seen` added by `fetch_and_save`; a field
  that may be absent in a stored record is an `Option`.
* `dict` keyed by `(school_id, link)` is an insertion-ordered association
  list: `insertA` replaces in place (Python dict update keeps the original
  insertion position), `eraseA` models `dict.pop`.
* Python `list.sort(key=..., reverse=True)` is a stable sort by the reversed
  key order; it is modelled with `List.insertionSort`, which is stable, so
  the outputs coincide.
-/

namespace Alliance

/-- Dates as naturals in chronological order; `0` is Python's `date.min`. -/
abbrev DateD := Nat

/-- The `date.min` sentinel used by `_scrape_detail` / the sort key. -/
def dateMin : DateD := 0

/-- The parse result of a timestamp string: `some t` iff
`datetime.fromisoformat` succeeds (cf. `_parse_iso_datetime`). -/
abbrev TStr := Option Int

/-- `STALE_AFTER = timedelta(days=180)` (announcement_service.py line 21),
measured in days. -/
def STALE_AFTER : Int := 180

/-- The dict returned by `_scrape_detail` (its exact key set, HTML branch). -/
structure Scraped where
  title : String
  summary : String
  body : String
  link : String
  category : String
  source : String
  school_id : String
  school_name : String
  city : String
  date : DateD
  status : String
  tags : List String
  highlight : Bool
  attachments : List Nat
  deriving DecidableEq

/-- A persisted announcement record: the scraped fields (with `date` possibly
absent/unparseable after the JSON round trip of `load_announcements`) plus
`id`, `first_seen`, `last_seen` maintained by `fetch_and_save`.  An `Option`
field models a dict key that may be absent. -/
structure Ann where
  title : String
  summary : String
  body : String
  link : String
  category : String
  source : String
  school_id : String
  school_name : String
  city : String
  date : Option DateD
  status : String
  tags : List String
  highlight : Bool
  attachments : List Nat
  id : Option Nat
  first_seen : Option TStr
  last_seen : Option TStr
  deriving DecidableEq

/-- Build an announcement record from a scraped dict plus bookkeeping fields:
`{**item}` with `id`, `first_seen`, `last_seen` set. -/
def mkAnn (s : Scraped) (i : Option Nat) (fs ls : Option TStr) : Ann :=
  { title := s.title, summary := s.summary, body := s.body, link := s.link,
    category := s.category, source := s.source, school_id := s.school_id,
    school_name := s.school_name, city := s.city, date := some s.date,
    status := s.status, tags := s.tags, highlight := s.highlight,
    attachments := s.attachments, id := i, first_seen := fs, last_seen := ls }

/-- `fetch_and_save` lines 697-705 (stored item found for the key):
`merged_item = {**existing_ann, **item}`, then
`merged_item["id"] = existing_ann.get("id")`,
`merged_item["first_seen"] = existing_ann.get("first_seen", now_iso)`,
`merged_item["last_seen"] = now_iso`. -/
def mergeAnn (ex : Ann) (s : Scraped) (now : Int) : Ann :=
  mkAnn s ex.id (some (ex.first_seen.getD (some now))) (some (some now))

/-- `fetch_and_save` lines 701-704 (no stored item for the key):
`merged_item = dict(item)`, `first_seen = now_iso`, `last_seen = now_iso`. -/
def newAnn (s : Scraped) (now : Int) : Ann :=
  mkAnn s none (some (some now)) (some (some now))

/-- Python truthiness test `if key[0] and key[1]` on `(school_id, link)`. -/
def validKeyS (s : Scraped) : Bool :=
  decide (s.school_id ≠ "" ∧ s.link ≠ "")

/-- Same truthiness test for a stored record. -/
def validKey (a : Ann) : Bool :=
  decide (a.school_id ≠ "" ∧ a.link ≠ "")

/-- The natural key `(school_id, link)`. -/
abbrev Key := String × String

def keyOf (a : Ann) : Key := (a.school_id, a.link)

def skey (s : Scraped) : Key := (s.school_id, s.link)

/-- `_parse_iso_datetime` applied to a possibly-absent field value. -/
def parseIso (v : Option TStr) : Option Int := v.bind (fun x => x)

/-- The staleness test of `fetch_and_save` lines 713-716:
drop iff the parse succeeds and `last_seen < now - STALE_AFTER`. -/
def staleB (now : Int) (a : Ann) : Bool :=
  match parseIso a.last_seen with
  | some t => decide (t < now - STALE_AFTER)
  | none => false

/-- The dict `existing_by_key`, as an insertion-ordered association list. -/
abbrev KMap := List (Key × Ann)

def lookupA (m : KMap) (k : Key) : Option Ann :=
  (m.find? (fun p => decide (p.1 = k))).map (fun p => p.2)

/-- `dict.pop` leaves the other entries in order. -/
def eraseA (m : KMap) (k : Key) : KMap :=
  m.filter (fun p => decide (p.1 ≠ k))

/-- `existing_by_key[key] = ann`: replace in place, or append. -/
def insertA (m : KMap) (k : Key) (v : Ann) : KMap :=
  if (m.find? (fun p => decide (p.1 = k))).isSome then
    m.map (fun p => if p.1 = k then (k, v) else p)
  else m ++ [(k, v)]

/-- `fetch_and_save` lines 680-684: build `existing_by_key` from the stored
snapshot, skipping records with a falsy `school_id` or `link`. -/
def buildMap (stored : List Ann) : KMap :=
  stored.foldl (fun m a => if validKey a then insertA m (keyOf a) a else m) []

/-- `fetch_and_save` lines 691-705: the loop over `scraped_items`.
Returns `(merged-prefix, newly_seen, remaining map)`. -/
def mergeLoop (now : Int) : List Scraped → KMap → List Ann × List Ann × KMap
  | [], m => ([], [], m)
  | s :: rest, m =>
    if validKeyS s then
      match lookupA m (skey s) with
      | some ex =>
        let r := mergeLoop now rest (eraseA m (skey s))
        (mergeAnn ex s now :: r.1, r.2.1, r.2.2)
      | none =>
        let r := mergeLoop now rest m
        (newAnn s now :: r.1, newAnn s now :: r.2.1, r.2.2)
    else mergeLoop now rest m

/-- `merged` after line 708: the loop results followed by
`existing_by_key.values()` (untouched stored items, in map order). -/
def mergedOf (stored : List Ann) (scraped : List Scraped) (now : Int) : List Ann :=
  let r := mergeLoop now scraped (buildMap stored)
  r.1 ++ r.2.2.map (fun p => p.2)

/-- `newly_seen` of the run. -/
def newOf (stored : List Ann) (scraped : List Scraped) (now : Int) : List Ann :=
  (mergeLoop now scraped (buildMap stored)).2.1

/-- `pruned` after lines 711-717: drop stale items. -/
def prunedOf (stored : List Ann) (scraped : List Scraped) (now : Int) : List Ann :=
  (mergedOf stored scraped now).filter (fun a => !(staleB now a))

/-- `max((a.get("id", 0) or 0) for a in pruned) if pruned else 0`. -/
def maxIdOf (l : List Ann) : Nat :=
  l.foldl (fun mx a => max mx (a.id.getD 0)) 0

/-- Python truthiness `not ann.get("id")`: absent or `0`. -/
def idMissing (a : Ann) : Bool :=
  match a.id with
  | none => true
  | some n => decide (n = 0)

/-- Lines 724-727: walk the sorted list, giving each id-less item the next
counter value. -/
def assignIds : Nat → List Ann → List Ann
  | _, [] => []
  | n, a :: rest =>
    if idMissing a then { a with id := some n } :: assignIds (n + 1) rest
    else a :: assignIds n rest

/-- Code-point lexicographic comparison of strings as in Python. -/
def charListLe : List Char → List Char → Bool
  | [], _ => true
  | _ :: _, [] => false
  | a :: as, b :: bs =>
    decide (a.toNat < b.toNat) || (decide (a.toNat = b.toNat) && charListLe as bs)

/-- Python tuple comparison `(date, title) <= (date', title')`. -/
def lexLe (p q : DateD × String) : Bool :=
  decide (p.1 < q.1) || (decide (p.1 = q.1) && charListLe p.2.data q.2.data)

/-- The sort key of line 723: `(a.get("date") or date.min, a.get("title", ""))`. -/
def sortKey (a : Ann) : DateD × String :=
  (a.date.getD dateMin, a.title)

/-- `a` may precede `b` under `sort(key=..., reverse=True)`: descending key
order, i.e. `sortKey b ≤ sortKey a`. -/
def annR (a b : Ann) : Prop :=
  lexLe (sortKey b) (sortKey a) = true

instance : DecidableRel annR := fun a b =>
  inferInstanceAs (Decidable (lexLe (sortKey b) (sortKey a) = true))

/-- Line 723: the stable descending sort. -/
def sortStep (l : List Ann) : List Ann :=
  List.insertionSort annR l

/-- The reconciliation of `fetch_and_save` lines 679-727: merge, prune,
sort, assign ids.  Returns `(saved snapshot, newly_seen)`. -/
def reconcile (stored : List Ann) (scraped : List Scraped) (now : Int) :
    List Ann × List Ann :=
  (assignIds (maxIdOf (prunedOf stored scraped now) + 1)
      (sortStep (prunedOf stored scraped now)),
    newOf stored scraped now)

/-! ### Claim C2: merge precedence -/

/-- C2: when a stored item and a scraped item share the `(school_id, link)`
key, the merged record takes every field from the scraped item, except `id`
and `first_seen` which are carried over unchanged from the stored item, and
`last_seen` which is set to the current run time.  (Per the data model,
`first_seen` is present on every stored announcement.) -/
theorem C2_merge_precedence (ex : Ann) (s : Scraped) (now : Int) (fs0 : TStr)
    (hfs : ex.first_seen = some fs0) :
    (mergeAnn ex s now).title = s.title ∧
    (mergeAnn ex s now).summary = s.summary ∧
    (mergeAnn ex s now).body = s.body ∧
    (mergeAnn ex s now).link = s.link ∧
    (mergeAnn ex s now).category = s.category ∧
    (mergeAnn ex s now).source = s.source ∧
    (mergeAnn ex s now).school_id = s.school_id ∧
    (mergeAnn ex s now).school_name = s.school_name ∧
    (mergeAnn ex s now).city = s.city ∧
    (mergeAnn ex s now).date = some s.date ∧
    (mergeAnn ex s now).status = s.status ∧
    (mergeAnn ex s now).tags = s.tags ∧
    (mergeAnn ex s now).highlight = s.highlight ∧
    (mergeAnn ex s now).attachments = s.attachments ∧
    (mergeAnn ex s now).id = ex.id ∧
    (mergeAnn ex s now).first_seen = ex.first_seen ∧
    (mergeAnn ex s now).last_seen = some (some now) := by
  refine ⟨rfl, rfl, rfl, rfl, rfl, rfl, rfl, rfl, rfl, rfl, rfl, rfl, rfl, rfl, rfl, ?_, rfl⟩
  simp [mergeAnn, mkAnn, hfs]

/-- Sample stored item of the C2 scenario: `{id: 5, first_seen: T0, title: "A"}`. -/
def c2Stored : Ann :=
  { title := "A", summary := "", body := "", link := "l", category := "PNRR Futura",
    source := "d", school_id := "sch", school_name := "S", city := "C",
    date := some 10, status := "Published", tags := [], highlight := false,
    attachments := [], id := some 5, first_seen := some (some 0),
    last_seen := some (some 0) }

/-- Sample scraped item of the C2 scenario: same key, `title: "B"`. -/
def c2Scraped : Scraped :=
  { title := "B", summary := "", body := "", link := "l", category := "PNRR Futura",
    source := "d", school_id := "sch", school_name := "S", city := "C",
    date := 10, status := "Published", tags := [], highlight := false,
    attachments := [] }

/-- Witness for C2 at the spec's concrete scenario: merging keeps `id = 5`,
`first_seen = T0` and takes `title = "B"`. -/
theorem C2_merge_precedence_witness :
    (mergeAnn c2Stored c2Scraped 7).title = "B" ∧
    (mergeAnn c2Stored c2Scraped 7).id = some 5 ∧
    (mergeAnn c2Stored c2Scraped 7).first_seen = some (some 0) ∧
    (mergeAnn c2Stored c2Scraped 7).last_seen = some (some 7) := by
  obtain ⟨h1, -, -, -, -, -, -, -, -, -, -, -, -, -, hid, hfs, hls⟩ :=
    C2_merge_precedence c2Stored c2Scraped 7 (some 0) rfl
  exact ⟨h1, hid, hfs, hls⟩

/-! ### Claim C10: unparseable `last_seen` is never pruned -/

/-- C10: during pruning, an item whose `last_seen` is absent or does not
parse as an ISO timestamp is retained in the merged snapshot: the staleness
check never removes it, regardless of its age. -/
theorem C10_unparseable_retained (stored : List Ann) (scraped : List Scraped)
    (now : Int) (a : Ann) (hmem : a ∈ mergedOf stored scraped now)
    (hbad : parseIso a.last_seen = none) :
    a ∈ prunedOf stored scraped now := by
  unfold prunedOf
  refine List.mem_filter.mpr ⟨hmem, ?_⟩
  simp [staleB, hbad]

/-- A stored record with an unparseable `last_seen`, used as the C10 witness. -/
def c10Item : Ann :=
  { title := "old", summary := "", body := "", link := "l0", category := "PNRR Futura",
    source := "d", school_id := "sch", school_name := "S", city := "C",
    date := some 3, status := "Published", tags := [], highlight := false,
    attachments := [], id := some 1, first_seen := some (some 0),
    last_seen := some none }

/-- Witness for C10: an untouched stored item whose `last_seen` string does
not parse survives the prune at an arbitrarily late run time. -/
theorem C10_unparseable_retained_witness :
    c10Item ∈ prunedOf [c10Item] [] 1000000 :=
  C10_unparseable_retained [c10Item] [] 1000000 c10Item (by decide) (by decide)

/-! ### Claim C6: date resolution priority (`_scrape_detail` lines 525-576) -/

/-- `_extract_attachments` line 468: `min(pdf_dates) if pdf_dates else None`. -/
def earliestPdfDate (ds : List DateD) : Option DateD :=
  match ds with
  | [] => none
  | d :: rest => some (rest.foldl min d)

/-- The date-resolution control flow of `_scrape_detail` lines 526-576.
`metaParsed` is `_parse_date(date_value)` when a structured meta tag with a
content value was found (`_parse_date` yields `date.min` when the value does
not parse), `none` when no meta tag matched; `pdfDates` are the dates mined
from PDF attachments; `textDate` is the result of the heuristic page-text
scan (`_extract_date_from_text`, which never returns `date.min`). -/
def resolvePublished (metaParsed : Option DateD) (pdfDates : List DateD)
    (textDate : Option DateD) : DateD :=
  let p1 := metaParsed.getD dateMin
  let p2 :=
    if p1 = dateMin then
      match earliestPdfDate pdfDates with
      | some d => d
      | none => p1
    else p1
  if p2 = dateMin then
    match textDate with
    | some d => d
    | none => p2
  else p2

/-- C6: date sources are consulted in strict priority order - structured meta
tags, then the earliest PDF date, then the heuristic text scan - and the
first source yielding a (valid, non-sentinel) date wins, the later sources
being irrelevant to the result.  In particular a valid meta date beats any
conflicting text-heuristic date. -/
theorem C6_date_priority (metaParsed : Option DateD) (pdfDates : List DateD)
    (textDate : Option DateD) :
    (∀ m, metaParsed = some m → m ≠ dateMin →
        resolvePublished metaParsed pdfDates textDate = m) ∧
    (metaParsed.getD dateMin = dateMin →
      ∀ e, earliestPdfDate pdfDates = some e → e ≠ dateMin →
        resolvePublished metaParsed pdfDates textDate = e) ∧
    (metaParsed.getD dateMin = dateMin → earliestPdfDate pdfDates = none →
      ∀ t, textDate = some t →
        resolvePublished metaParsed pdfDates textDate = t) := by
  refine ⟨?_, ?_, ?_⟩
  · intro m hm hne
    simp [resolvePublished, hm, hne]
  · intro h1 e he hne
    simp [resolvePublished, h1, he, hne]
  · intro h1 h2 t ht
    simp [resolvePublished, h1, h2, ht]

/-- Witness for C6: a page with meta date 5 and a conflicting text date 2
resolves to 5; with no meta, PDF dates [4, 3] resolve to the earliest 3;
with neither, the text date 2 wins. -/
theorem C6_date_priority_witness :
    resolvePublished (some 5) [3] (some 2) = 5 ∧
    resolvePublished none [4, 3] (some 2) = 3 ∧
    resolvePublished none [] (some 2) = 2 := by
  refine ⟨(C6_date_priority (some 5) [3] (some 2)).1 5 rfl (by decide), ?_, ?_⟩
  · exact (C6_date_priority none [4, 3] (some 2)).2.1 (by decide) 3 (by decide) (by decide)
  · exact (C6_date_priority none [] (some 2)).2.2 (by decide) (by decide) 2 rfl

/-! ### Claim C9: status "Open" implies highlight (`_scrape_detail` 578-581) -/

/-- Boolean substring containment on character lists (Python `in`). -/
def isInfixB (needle : List Char) : List Char → Bool
  | [] => needle.isEmpty
  | c :: rest => needle.isPrefixOf (c :: rest) || isInfixB needle rest

/-- Python `k in title.lower()`: lowering is modelled character-wise (the
keywords involved are plain ASCII). -/
def kwInTitle (title : String) (k : String) : Bool :=
  isInfixB k.data (title.data.map Char.toLower)

/-- Line 579: `highlight_keywords`. -/
def highlightKeywords : List String :=
  ["avviso", "selezione", "tutor", "bando", "assunzione", "progetto", "incarico"]

/-- Line 581: the keywords that force status "Open". -/
def statusOpenKeywords : List String := ["selezione", "avviso", "bando"]

/-- Line 580: `highlight = any(k in title.lower() for k in highlight_keywords)`. -/
def highlightOf (title : String) : Bool :=
  highlightKeywords.any (fun k => kwInTitle title k)

/-- Line 581: `status = "Open" if any(...) else "Published"`. -/
def statusOf (title : String) : String :=
  if statusOpenKeywords.any (fun k => kwInTitle title k) then "Open" else "Published"

/-- C9: every extracted announcement with status "Open" has the highlight
flag set: the "Open" keyword set is a subset of the highlight keyword set,
and both are matched case-insensitively against the same title. -/
theorem C9_open_implies_highlight :
    (∀ title : String, statusOf title = "Open" → highlightOf title = true) ∧
    (∀ k, k ∈ statusOpenKeywords → k ∈ highlightKeywords) := by
  constructor
  · intro title h
    unfold statusOf at h
    by_cases hc : (statusOpenKeywords.any (fun k => kwInTitle title k)) = true
    · obtain ⟨k, hk, hkt⟩ := List.any_eq_true.mp hc
      refine List.any_eq_true.mpr ⟨k, ?_, hkt⟩
      fin_cases hk <;> decide
    · rw [if_neg hc] at h
      exact absurd h (by decide)
  · intro k hk
    fin_cases hk <;> decide

/-- Witness for C9: the title "Avviso di selezione" gets status "Open" and
hence highlight. -/
theorem C9_open_implies_highlight_witness :
    statusOf "Avviso di selezione" = "Open" ∧
    highlightOf "Avviso di selezione" = true :=
  ⟨by decide, C9_open_implies_highlight.1 "Avviso di selezione" (by decide)⟩

/-! ### Claim C7: document-store save under a stale generation
(`blob_json_store.py`, `save_with_generation` lines 85-118) -/

/-- The remote blob object: its payload and backend-assigned generation. -/
structure BlobState where
  content : Nat
  generation : Nat
  deriving DecidableEq

/-- GCS `blob.upload_from_string` with an optional `if_generation_match`
precondition: uploads succeed (with a fresh generation) iff no precondition
is supplied or it equals the current generation; `none` models the raised
precondition-failure exception. -/
def uploadIfMatch (st : BlobState) (doc : Nat) (genMatch : Option Nat) :
    Option BlobState :=
  match genMatch with
  | none => some { content := doc, generation := st.generation + 1 }
  | some g =>
    if g = st.generation then some { content := doc, generation := st.generation + 1 }
    else none

/-- The retry loop of `save_with_generation` (lines 96-118), modelled with a
single concurrent writer: on a failed attempt that is not the last, the code
sleeps, calls `blob.reload()` and replaces `generation` by the backend's
current generation, then retries; after a failure on the last attempt it
logs an error and returns, leaving the blob unchanged and raising nothing.
`fuel` counts the attempts left (the call site uses `retries = 5`). -/
def saveLoop (st : BlobState) (doc : Nat) : Option Nat → Nat → BlobState
  | _, 0 => st
  | gen, fuel + 1 =>
    match uploadIfMatch st doc gen with
    | some st' => st'
    | none =>
      if fuel = 0 then st
      else saveLoop st doc (some st.generation) fuel

/-- `save_with_generation(data, generation)` on the GCS path. -/
def save_with_generation (st : BlobState) (doc : Nat) (gen : Option Nat) : BlobState :=
  saveLoop st doc gen 5

/-- C7 (code bug evidence): a save that supplies a generation different from
the backend's current one does NOT fail and IS applied - the first attempt's
precondition failure is caught, the generation is refreshed via
`blob.reload()`, and the retry overwrites the document.  No `ConflictError`
exists anywhere in the code base, and `save_with_generation` never raises.
The claim (spec section 4.1) says such a save must raise `ConflictError`
and must not have applied. -/
theorem C7_stale_generation_write_applies (st : BlobState) (doc : Nat) (g : Nat)
    (hne : g ≠ st.generation) :
    save_with_generation st doc (some g) =
      { content := doc, generation := st.generation + 1 } := by
  simp [save_with_generation, saveLoop, uploadIfMatch, hne]

/-- Witness for C7 at the failing input: backend generation 5, supplied
generation 3 - the write is applied anyway. -/
theorem C7_stale_generation_write_applies_witness :
    save_with_generation ⟨0, 5⟩ 1 (some 3) = ⟨1, 6⟩ :=
  C7_stale_generation_write_applies ⟨0, 5⟩ 1 3 (by decide)

/-! ### Order lemmas for the sort comparator -/

theorem charListLe_total : ∀ x y : List Char, charListLe x y = true ∨ charListLe y x = true
  | [], _ => Or.inl rfl
  | _ :: _, [] => Or.inr rfl
  | a :: as, b :: bs => by
    rcases Nat.lt_trichotomy a.toNat b.toNat with h | h | h
    · left; simp [charListLe, h]
    · rcases charListLe_total as bs with ih | ih
      · left; simp [charListLe, h, ih]
      · right; simp [charListLe, h.symm, ih, Nat.lt_irrefl]
    · right; simp [charListLe, h]

theorem charListLe_trans : ∀ x y z : List Char,
    charListLe x y = true → charListLe y z = true → charListLe x z = true
  | [], _, _, _, _ => rfl
  | a :: as, [], _, h, _ => by simp [charListLe] at h
  | a :: as, b :: bs, [], _, h => by simp [charListLe] at h
  | a :: as, b :: bs, c :: cs, h1, h2 => by
    simp only [charListLe, Bool.or_eq_true, Bool.and_eq_true, decide_eq_true_eq] at h1 h2 ⊢
    rcases h1 with h1 | ⟨h1e, h1r⟩ <;> rcases h2 with h2 | ⟨h2e, h2r⟩
    · left; omega
    · left; omega
    · left; omega
    · exact Or.inr ⟨by omega, charListLe_trans as bs cs h1r h2r⟩

theorem lexLe_total (p q : DateD × String) : lexLe p q = true ∨ lexLe q p = true := by
  rcases Nat.lt_trichotomy p.1 q.1 with h | h | h
  · left; simp [lexLe, h]
  · rcases charListLe_total p.2.data q.2.data with hc | hc
    · left; simp [lexLe, h, hc]
    · right; simp [lexLe, h.symm, hc, Nat.lt_irrefl]
  · right; simp [lexLe, h]

theorem lexLe_trans (p q r : DateD × String)
    (h1 : lexLe p q = true) (h2 : lexLe q r = true) : lexLe p r = true := by
  simp only [lexLe, Bool.or_eq_true, Bool.and_eq_true, decide_eq_true_eq] at h1 h2 ⊢
  rcases h1 with h1 | ⟨h1e, h1c⟩ <;> rcases h2 with h2 | ⟨h2e, h2c⟩
  · exact Or.inl (Nat.lt_trans h1 h2)
  · exact Or.inl (h2e ▸ h1)
  · exact Or.inl (h1e ▸ h2)
  · exact Or.inr ⟨h1e.trans h2e, charListLe_trans _ _ _ h1c h2c⟩

instance : IsTotal Ann annR :=
  ⟨fun a b => lexLe_total (sortKey b) (sortKey a)⟩

instance : IsTrans Ann annR :=
  ⟨fun _ _ _ h1 h2 => lexLe_trans _ _ _ h2 h1⟩

theorem sortStep_sorted (l : List Ann) : List.Pairwise annR (sortStep l) :=
  List.sorted_insertionSort annR l

theorem sortStep_perm (l : List Ann) : (sortStep l).Perm l :=
  List.perm_insertionSort annR l

/-! ### Lemmas about id assignment -/

theorem assignIds_map_sortKey : ∀ (n : Nat) (l : List Ann),
    (assignIds n l).map sortKey = l.map sortKey
  | _, [] => rfl
  | n, a :: rest => by
    by_cases h : idMissing a = true
    · simp only [assignIds, h, if_true, List.map_cons, assignIds_map_sortKey (n + 1) rest]
      rfl
    · simp only [assignIds, h, if_false, Bool.false_eq_true, List.map_cons,
        assignIds_map_sortKey n rest]

theorem assignIds_map_keyOf : ∀ (n : Nat) (l : List Ann),
    (assignIds n l).map keyOf = l.map keyOf
  | _, [] => rfl
  | n, a :: rest => by
    by_cases h : idMissing a = true
    · simp only [assignIds, h, if_true, List.map_cons, assignIds_map_keyOf (n + 1) rest]
      rfl
    · simp only [assignIds, h, if_false, Bool.false_eq_true, List.map_cons,
        assignIds_map_keyOf n rest]

theorem assignIds_pairwise (n : Nat) (l : List Ann) (h : List.Pairwise annR l) :
    List.Pairwise annR (assignIds n l) := by
  have h1 : List.Pairwise (fun p q : DateD × String => lexLe q p = true) (l.map sortKey) :=
    List.pairwise_map.mpr h
  have h2 : List.Pairwise (fun p q : DateD × String => lexLe q p = true)
      ((assignIds n l).map sortKey) := by
    rw [assignIds_map_sortKey]; exact h1
  exact (List.pairwise_map (f := sortKey)).mp h2

theorem foldl_max_le_init (l : List Ann) :
    ∀ init : Nat, init ≤ l.foldl (fun mx a => max mx (a.id.getD 0)) init := by
  induction l with
  | nil => intro init; exact Nat.le_refl _
  | cons a rest ih => intro init; exact Nat.le_trans (Nat.le_max_left _ _) (ih _)

theorem le_maxIdOf_aux : ∀ (l : List Ann) (init : Nat) (a : Ann), a ∈ l →
    a.id.getD 0 ≤ l.foldl (fun mx x => max mx (x.id.getD 0)) init := by
  intro l
  induction l with
  | nil => intro _ _ h; cases h
  | cons b rest ih =>
    intro init a h
    rcases List.mem_cons.mp h with rfl | h
    · exact Nat.le_trans (Nat.le_max_right _ _) (foldl_max_le_init rest _)
    · exact ih _ a h

theorem le_maxIdOf (l : List Ann) (a : Ann) (h : a ∈ l) : a.id.getD 0 ≤ maxIdOf l :=
  le_maxIdOf_aux l 0 a h

theorem assignIds_filterMap : ∀ (l : List Ann) (n m : Nat), m < n →
    (∀ a ∈ l, idMissing a = false → a.id.getD 0 ≤ m) →
    (assignIds n l).filterMap (fun a => if m < a.id.getD 0 then a.id else none)
      = List.range' n (l.countP idMissing) := by
  intro l
  induction l with
  | nil => intro n m _ _; rfl
  | cons a rest ih =>
    intro n m hmn hbound
    by_cases h : idMissing a = true
    · have hrec := ih (n + 1) m (Nat.lt_succ_of_lt hmn)
        (fun x hx hmiss => hbound x (List.mem_cons_of_mem a hx) hmiss)
      rw [show assignIds n (a :: rest) = { a with id := some n } :: assignIds (n + 1) rest
          from by simp [assignIds, h]]
      rw [List.filterMap_cons]
      have hfx : (if m < ({ a with id := some n } : Ann).id.getD 0
          then ({ a with id := some n } : Ann).id else none) = some n := by
        simp [hmn]
      rw [hfx, hrec, List.countP_cons, h]
      simp [List.range'_succ]
    · have h' : idMissing a = false := by simpa using h
      have hb : a.id.getD 0 ≤ m := hbound a (List.mem_cons_self a rest) h'
      have hnot : ¬ (m < a.id.getD 0) := Nat.not_lt.mpr hb
      have hrec := ih n m hmn
        (fun x hx hmiss => hbound x (List.mem_cons_of_mem a hx) hmiss)
      rw [show assignIds n (a :: rest) = a :: assignIds n rest
          from by simp [assignIds, h]]
      rw [List.filterMap_cons]
      have hfx : (if m < a.id.getD 0 then a.id else none) = none := by simp [hnot]
      rw [hfx, hrec, List.countP_cons, h']
      simp

/-! ### Claim C1: presentation order and id assignment -/

/-- First scraped item of the C1 scenario: title "a". -/
def c1A : Scraped :=
  { title := "a", summary := "", body := "", link := "la", category := "PNRR Futura",
    source := "d", school_id := "sch", school_name := "S", city := "C",
    date := 10, status := "Published", tags := [], highlight := false,
    attachments := [] }

/-- Second scraped item of the C1 scenario: same date, title "b". -/
def c1B : Scraped :=
  { title := "b", summary := "", body := "", link := "lb", category := "PNRR Futura",
    source := "d", school_id := "sch", school_name := "S", city := "C",
    date := 10, status := "Published", tags := [], highlight := false,
    attachments := [] }

/-- C1 counterexample: the claim says the merged set is sorted by
`(published_date desc, title ASC)` and ids are assigned in that order, so
with an empty store and two new same-date items titled "a" and "b" the item
titled "a" must receive id 1.  The code sorts with `reverse=True` on the
whole `(date, title)` key - title DESCENDING - so "b" comes first and gets
id 1 while "a" gets id 2. -/
theorem C1_counterexample :
    ((reconcile [] [c1A, c1B] 0).1.map (fun x => (x.title, x.id)))
      = [("b", some 1), ("a", some 2)] := by decide

/-- C1 as amended: the merged, pruned snapshot is sorted by
`(published_date desc, title DESC)` (the comparator `annR`), and the items
lacking an id receive, following that same order, the consecutive ids
`max existing id + 1, max existing id + 2, ...`; the procedure is a pure
function of (stored, scraped, now), hence deterministic. -/
theorem C1_amended_sort_and_ids (stored : List Ann) (scraped : List Scraped) (now : Int) :
    List.Pairwise annR (reconcile stored scraped now).1 ∧
    (reconcile stored scraped now).1.filterMap
        (fun a => if maxIdOf (prunedOf stored scraped now) < a.id.getD 0 then a.id else none)
      = List.range' (maxIdOf (prunedOf stored scraped now) + 1)
          ((prunedOf stored scraped now).countP idMissing) := by
  constructor
  · exact assignIds_pairwise _ _ (sortStep_sorted _)
  · have hperm := sortStep_perm (prunedOf stored scraped now)
    have hbound : ∀ a ∈ sortStep (prunedOf stored scraped now), idMissing a = false →
        a.id.getD 0 ≤ maxIdOf (prunedOf stored scraped now) :=
      fun a ha _ => le_maxIdOf _ a (hperm.mem_iff.mp ha)
    rw [show (reconcile stored scraped now).1
        = assignIds (maxIdOf (prunedOf stored scraped now) + 1)
            (sortStep (prunedOf stored scraped now)) from rfl,
      assignIds_filterMap _ _ _ (Nat.lt_succ_self _) hbound,
      hperm.countP_eq]

/-! ### Association-list (`existing_by_key`) lemmas -/

theorem keyOf_mkAnn (s : Scraped) (i : Option Nat) (fs ls : Option TStr) :
    keyOf (mkAnn s i fs ls) = skey s := rfl

theorem validKey_mkAnn (s : Scraped) (i : Option Nat) (fs ls : Option TStr) :
    validKey (mkAnn s i fs ls) = validKeyS s := rfl

theorem insertA_keys (m : KMap) (k : Key) (v : Ann) :
    (insertA m k v).map Prod.fst
      = if (m.find? (fun p => decide (p.1 = k))).isSome then m.map Prod.fst
        else m.map Prod.fst ++ [k] := by
  unfold insertA
  by_cases h : (m.find? (fun p => decide (p.1 = k))).isSome
  · rw [if_pos h, if_pos h, List.map_map]
    refine List.map_congr_left (fun p _ => ?_)
    by_cases hk : p.1 = k
    · simp [Function.comp, hk]
    · simp [Function.comp, hk]
  · rw [if_neg h, if_neg h]
    simp

theorem insertA_nodup_keys (m : KMap) (k : Key) (v : Ann)
    (h : (m.map Prod.fst).Nodup) : ((insertA m k v).map Prod.fst).Nodup := by
  rw [insertA_keys]
  by_cases hf : (m.find? (fun p => decide (p.1 = k))).isSome
  · rw [if_pos hf]; exact h
  · rw [if_neg hf]
    have hk : k ∉ m.map Prod.fst := by
      intro hmem
      rcases List.mem_map.mp hmem with ⟨p, hp, hpk⟩
      have hnone := List.find?_eq_none.mp (Option.not_isSome_iff_eq_none.mp hf) p hp
      simp [hpk] at hnone
    exact List.Nodup.append h (List.nodup_singleton k) (List.disjoint_singleton.mpr hk)

theorem insertA_mem (m : KMap) (k : Key) (v : Ann) :
    ∀ q ∈ insertA m k v, q ∈ m ∨ q = (k, v) := by
  intro q hq
  unfold insertA at hq
  by_cases h : (m.find? (fun p => decide (p.1 = k))).isSome
  · rw [if_pos h] at hq
    rcases List.mem_map.mp hq with ⟨p, hp, hpq⟩
    by_cases hk : p.1 = k
    · right; rw [← hpq, if_pos hk]
    · left; rw [← hpq, if_neg hk]; exact hp
  · rw [if_neg h] at hq
    rcases List.mem_append.mp hq with h1 | h1
    · left; exact h1
    · right; simpa using h1

theorem buildMapAux_nodup : ∀ (l : List Ann) (m : KMap), (m.map Prod.fst).Nodup →
    ((l.foldl (fun m a => if validKey a then insertA m (keyOf a) a else m) m).map
        Prod.fst).Nodup := by
  intro l
  induction l with
  | nil => intro m h; simpa using h
  | cons a rest ih =>
    intro m h
    rw [List.foldl_cons]
    by_cases hv : validKey a = true
    · rw [if_pos hv]
      exact ih _ (insertA_nodup_keys _ _ _ h)
    · rw [if_neg hv]
      exact ih _ h

/-- The keys of `existing_by_key` are pairwise distinct. -/
theorem buildMap_nodup_keys (stored : List Ann) :
    ((buildMap stored).map Prod.fst).Nodup :=
  buildMapAux_nodup stored [] (by simp)

theorem buildMapAux_entries (Q : Ann → Prop) : ∀ (l : List Ann) (m : KMap),
    (∀ p ∈ m, keyOf p.2 = p.1 ∧ validKey p.2 = true ∧ Q p.2) →
    (∀ a ∈ l, Q a) →
    ∀ p ∈ l.foldl (fun m a => if validKey a then insertA m (keyOf a) a else m) m,
      keyOf p.2 = p.1 ∧ validKey p.2 = true ∧ Q p.2 := by
  intro l
  induction l with
  | nil => intro m hm _ p hp; exact hm p hp
  | cons a rest ih =>
    intro m hm hl
    rw [List.foldl_cons]
    by_cases hv : validKey a = true
    · rw [if_pos hv]
      refine ih _ ?_ (fun x hx => hl x (List.mem_cons_of_mem a hx))
      intro p hp
      rcases insertA_mem _ _ _ p hp with h1 | h1
      · exact hm p h1
      · subst h1; exact ⟨rfl, hv, hl a (List.mem_cons_self a rest)⟩
    · rw [if_neg hv]
      exact ih _ hm (fun x hx => hl x (List.mem_cons_of_mem a hx))

/-- Every entry of `existing_by_key` is keyed by its own `(school_id, link)`,
has a valid key, and is one of the stored records. -/
theorem buildMap_entries (stored : List Ann) :
    ∀ p ∈ buildMap stored, keyOf p.2 = p.1 ∧ validKey p.2 = true ∧ p.2 ∈ stored :=
  buildMapAux_entries (fun x => x ∈ stored) stored []
    (by intro p hp; cases hp) (fun a ha => ha)

theorem buildMap_eq_map_aux : ∀ (l : List Ann) (m : KMap),
    (∀ a ∈ l, validKey a = true) →
    (m.map Prod.fst ++ l.map keyOf).Nodup →
    l.foldl (fun m a => if validKey a then insertA m (keyOf a) a else m) m
      = m ++ l.map (fun a => (keyOf a, a)) := by
  intro l
  induction l with
  | nil => intro m _ _; simp
  | cons a rest ih =>
    intro m hv hnd
    rw [List.foldl_cons, if_pos (hv a (List.mem_cons_self a rest))]
    have hka : keyOf a ∉ m.map Prod.fst := by
      intro hmem
      exact List.disjoint_of_nodup_append hnd hmem (by simp)
    have hfind : m.find? (fun p => decide (p.1 = keyOf a)) = none := by
      refine List.find?_eq_none.mpr (fun p hp => ?_)
      simp only [decide_eq_true_eq]
      intro hpk
      exact hka (hpk ▸ List.mem_map_of_mem Prod.fst hp)
    have hins : insertA m (keyOf a) a = m ++ [(keyOf a, a)] := by
      unfold insertA
      rw [hfind]
      simp
    have hnd' : ((m ++ [(keyOf a, a)]).map Prod.fst ++ rest.map keyOf).Nodup := by
      simpa using hnd
    rw [hins, ih _ (fun x hx => hv x (List.mem_cons_of_mem a hx)) hnd']
    simp

/-- When the stored snapshot has valid, pairwise-distinct keys,
`existing_by_key` is exactly the stored list keyed by `keyOf`. -/
theorem buildMap_eq_map (stored : List Ann)
    (hv : ∀ a ∈ stored, validKey a = true)
    (hnd : (stored.map keyOf).Nodup) :
    buildMap stored = stored.map (fun a => (keyOf a, a)) := by
  have h := buildMap_eq_map_aux stored [] hv (by simpa using hnd)
  simpa [buildMap] using h

theorem lookupA_cons_pos (p : Key × Ann) (rest : KMap) (k' : Key)
    (h : p.1 = k') : lookupA (p :: rest) k' = some p.2 := by
  unfold lookupA
  rw [List.find?_cons_of_pos]
  · rfl
  · simpa using h

theorem lookupA_cons_neg (p : Key × Ann) (rest : KMap) (k' : Key)
    (h : ¬ p.1 = k') : lookupA (p :: rest) k' = lookupA rest k' := by
  unfold lookupA
  rw [List.find?_cons_of_neg]
  simpa using h

theorem lookupA_eraseA_ne : ∀ (m : KMap) (k k' : Key), k' ≠ k →
    lookupA (eraseA m k) k' = lookupA m k'
  | [], _, _, _ => rfl
  | p :: rest, k, k', h => by
    by_cases hpk : p.1 = k
    · have h1 : eraseA (p :: rest) k = eraseA rest k := by
        simp [eraseA, List.filter_cons, hpk]
      have hpk' : ¬ (p.1 = k') := fun he => h (he.symm.trans hpk)
      rw [h1, lookupA_cons_neg p rest k' hpk']
      exact lookupA_eraseA_ne rest k k' h
    · have h1 : eraseA (p :: rest) k = p :: eraseA rest k := by
        simp [eraseA, List.filter_cons, hpk]
      rw [h1]
      by_cases hpk' : p.1 = k'
      · rw [lookupA_cons_pos p _ k' hpk', lookupA_cons_pos p rest k' hpk']
      · rw [lookupA_cons_neg p _ k' hpk', lookupA_cons_neg p rest k' hpk']
        exact lookupA_eraseA_ne rest k k' h

/-! ### Merge-loop component equations -/

theorem mergeLoop_fst_merge (now : Int) (s : Scraped) (rest : List Scraped)
    (m : KMap) (hv : validKeyS s = true) (ex : Ann)
    (hl : lookupA m (skey s) = some ex) :
    (mergeLoop now (s :: rest) m).1
      = mergeAnn ex s now :: (mergeLoop now rest (eraseA m (skey s))).1 := by
  simp [mergeLoop, hv, hl]

theorem mergeLoop_new_merge (now : Int) (s : Scraped) (rest : List Scraped)
    (m : KMap) (hv : validKeyS s = true) (ex : Ann)
    (hl : lookupA m (skey s) = some ex) :
    (mergeLoop now (s :: rest) m).2.1
      = (mergeLoop now rest (eraseA m (skey s))).2.1 := by
  simp [mergeLoop, hv, hl]

theorem mergeLoop_rest_merge (now : Int) (s : Scraped) (rest : List Scraped)
    (m : KMap) (hv : validKeyS s = true) (ex : Ann)
    (hl : lookupA m (skey s) = some ex) :
    (mergeLoop now (s :: rest) m).2.2
      = (mergeLoop now rest (eraseA m (skey s))).2.2 := by
  simp [mergeLoop, hv, hl]

theorem mergeLoop_fst_new (now : Int) (s : Scraped) (rest : List Scraped)
    (m : KMap) (hv : validKeyS s = true) (hl : lookupA m (skey s) = none) :
    (mergeLoop now (s :: rest) m).1 = newAnn s now :: (mergeLoop now rest m).1 := by
  simp [mergeLoop, hv, hl]

theorem mergeLoop_new_new (now : Int) (s : Scraped) (rest : List Scraped)
    (m : KMap) (hv : validKeyS s = true) (hl : lookupA m (skey s) = none) :
    (mergeLoop now (s :: rest) m).2.1
      = newAnn s now :: (mergeLoop now rest m).2.1 := by
  simp [mergeLoop, hv, hl]

theorem mergeLoop_rest_new (now : Int) (s : Scraped) (rest : List Scraped)
    (m : KMap) (hv : validKeyS s = true) (hl : lookupA m (skey s) = none) :
    (mergeLoop now (s :: rest) m).2.2 = (mergeLoop now rest m).2.2 := by
  simp [mergeLoop, hv, hl]

theorem mergeLoop_skip (now : Int) (s : Scraped) (rest : List Scraped)
    (m : KMap) (hv : ¬ validKeyS s = true) :
    mergeLoop now (s :: rest) m = mergeLoop now rest m := by
  simp [mergeLoop, hv]

/-- The keys of the merged-prefix are exactly the scraped valid keys,
in order. -/
theorem mergeLoop_fst_keys (now : Int) : ∀ (scraped : List Scraped) (m : KMap),
    (mergeLoop now scraped m).1.map keyOf = (scraped.filter validKeyS).map skey
  | [], _ => rfl
  | s :: rest, m => by
    by_cases hv : validKeyS s = true
    · cases hl : lookupA m (skey s) with
      | some ex =>
        rw [mergeLoop_fst_merge now s rest m hv ex hl, List.filter_cons_of_pos hv,
          List.map_cons, List.map_cons, mergeLoop_fst_keys now rest (eraseA m (skey s))]
        rfl
      | none =>
        rw [mergeLoop_fst_new now s rest m hv hl, List.filter_cons_of_pos hv,
          List.map_cons, List.map_cons, mergeLoop_fst_keys now rest m]
        rfl
    · rw [mergeLoop_skip now s rest m hv, List.filter_cons_of_neg hv]
      exact mergeLoop_fst_keys now rest m

/-- Every item of the merged-prefix has `last_seen = now_iso`. -/
theorem mergeLoop_fst_lastSeen (now : Int) : ∀ (scraped : List Scraped) (m : KMap),
    ∀ a ∈ (mergeLoop now scraped m).1, a.last_seen = some (some now)
  | [], _, a, ha => by cases ha
  | s :: rest, m, a, ha => by
    by_cases hv : validKeyS s = true
    · cases hl : lookupA m (skey s) with
      | some ex =>
        rw [mergeLoop_fst_merge now s rest m hv ex hl] at ha
        rcases List.mem_cons.mp ha with rfl | ha
        · rfl
        · exact mergeLoop_fst_lastSeen now rest (eraseA m (skey s)) a ha
      | none =>
        rw [mergeLoop_fst_new now s rest m hv hl] at ha
        rcases List.mem_cons.mp ha with rfl | ha
        · rfl
        · exact mergeLoop_fst_lastSeen now rest m a ha
    · rw [mergeLoop_skip now s rest m hv] at ha
      exact mergeLoop_fst_lastSeen now rest m a ha

/-- After the loop, the remaining map holds exactly the entries whose key
was not (validly) scraped. -/
theorem mergeLoop_rest_eq (now : Int) : ∀ (scraped : List Scraped) (m : KMap),
    (mergeLoop now scraped m).2.2
      = m.filter (fun p => !(decide (p.1 ∈ (scraped.filter validKeyS).map skey)))
  | [], m => by simp [mergeLoop]
  | s :: rest, m => by
    by_cases hv : validKeyS s = true
    · cases hl : lookupA m (skey s) with
      | some ex =>
        rw [mergeLoop_rest_merge now s rest m hv ex hl,
          mergeLoop_rest_eq now rest (eraseA m (skey s))]
        unfold eraseA
        rw [List.filter_filter, List.filter_cons_of_pos hv]
        refine List.filter_congr (fun p _ => ?_)
        by_cases h1 : p.1 = skey s <;>
          by_cases h2 : p.1 ∈ (rest.filter validKeyS).map skey <;>
            simp [h1, h2]
      | none =>
        rw [mergeLoop_rest_new now s rest m hv hl,
          mergeLoop_rest_eq now rest m, List.filter_cons_of_pos hv]
        have hfind : m.find? (fun p => decide (p.1 = skey s)) = none := by
          have hmap := hl
          unfold lookupA at hmap
          exact Option.map_eq_none'.mp hmap
        refine List.filter_congr (fun p hp => ?_)
        have hne : ¬ (p.1 = skey s) := by
          have := List.find?_eq_none.mp hfind p hp
          simpa using this
        by_cases h2 : p.1 ∈ (rest.filter validKeyS).map skey <;> simp [hne, h2]
    · rw [mergeLoop_skip now s rest m hv, List.filter_cons_of_neg hv]
      exact mergeLoop_rest_eq now rest m

/-- One step of the scraped-item loop: merge with the stored record of the
same key if present, else create. -/
def mergeOne (m : KMap) (now : Int) (s : Scraped) : Ann :=
  match lookupA m (skey s) with
  | some ex => mergeAnn ex s now
  | none => newAnn s now

/-- Under pairwise-distinct scraped keys, the merged-prefix is the map of
`mergeOne` over the valid scraped items (lookups all against the initial
map). -/
theorem mergeLoop_fst_eq_map (now : Int) : ∀ (scraped : List Scraped) (m : KMap),
    ((scraped.filter validKeyS).map skey).Nodup →
    (mergeLoop now scraped m).1 = (scraped.filter validKeyS).map (mergeOne m now)
  | [], _, _ => rfl
  | s :: rest, m, hnd => by
    by_cases hv : validKeyS s = true
    · rw [List.filter_cons_of_pos hv, List.map_cons] at hnd
      have hnd_rest : ((rest.filter validKeyS).map skey).Nodup :=
        (List.nodup_cons.mp hnd).2
      have hnotin : skey s ∉ (rest.filter validKeyS).map skey :=
        (List.nodup_cons.mp hnd).1
      have htail_congr : ∀ m' : KMap,
          (∀ s' ∈ rest.filter validKeyS, lookupA m' (skey s') = lookupA m (skey s')) →
          (rest.filter validKeyS).map (mergeOne m' now)
            = (rest.filter validKeyS).map (mergeOne m now) := by
        intro m' hsame
        refine List.map_congr_left (fun s' hs' => ?_)
        simp [mergeOne, hsame s' hs']
      rw [List.filter_cons_of_pos hv, List.map_cons]
      cases hl : lookupA m (skey s) with
      | some ex =>
        rw [mergeLoop_fst_merge now s rest m hv ex hl,
          mergeLoop_fst_eq_map now rest (eraseA m (skey s)) hnd_rest]
        have hsame : ∀ s' ∈ rest.filter validKeyS,
            lookupA (eraseA m (skey s)) (skey s') = lookupA m (skey s') := by
          intro s' hs'
          refine lookupA_eraseA_ne m (skey s) (skey s') (fun he => ?_)
          exact hnotin (he ▸ List.mem_map_of_mem skey hs')
        rw [htail_congr _ hsame]
        simp [mergeOne, hl]
      | none =>
        rw [mergeLoop_fst_new now s rest m hv hl,
          mergeLoop_fst_eq_map now rest m hnd_rest]
        simp [mergeOne, hl]
    · have hnd' : ((rest.filter validKeyS).map skey).Nodup := by
        rwa [List.filter_cons_of_neg hv] at hnd
      rw [mergeLoop_skip now s rest m hv, List.filter_cons_of_neg hv]
      exact mergeLoop_fst_eq_map now rest m hnd'

/-! ### Structure of the merged list and of the final snapshot -/

theorem mergeLoop_fst_validKey (now : Int) : ∀ (scraped : List Scraped) (m : KMap),
    ∀ a ∈ (mergeLoop now scraped m).1, validKey a = true
  | [], _, a, ha => by cases ha
  | s :: rest, m, a, ha => by
    by_cases hv : validKeyS s = true
    · cases hl : lookupA m (skey s) with
      | some ex =>
        rw [mergeLoop_fst_merge now s rest m hv ex hl] at ha
        rcases List.mem_cons.mp ha with rfl | ha
        · exact hv
        · exact mergeLoop_fst_validKey now rest (eraseA m (skey s)) a ha
      | none =>
        rw [mergeLoop_fst_new now s rest m hv hl] at ha
        rcases List.mem_cons.mp ha with rfl | ha
        · exact hv
        · exact mergeLoop_fst_validKey now rest m a ha
    · rw [mergeLoop_skip now s rest m hv] at ha
      exact mergeLoop_fst_validKey now rest m a ha

theorem mergedOf_append (stored : List Ann) (scraped : List Scraped) (now : Int) :
    mergedOf stored scraped now
      = (mergeLoop now scraped (buildMap stored)).1
        ++ ((buildMap stored).filter
            (fun p => !(decide (p.1 ∈ (scraped.filter validKeyS).map skey)))).map
              (fun p => p.2) := by
  unfold mergedOf
  show (mergeLoop now scraped (buildMap stored)).1
      ++ ((mergeLoop now scraped (buildMap stored)).2.2).map (fun p => p.2) = _
  rw [mergeLoop_rest_eq]

theorem mergedOf_keys_nodup (stored : List Ann) (scraped : List Scraped) (now : Int)
    (hN : ((scraped.filter validKeyS).map skey).Nodup) :
    ((mergedOf stored scraped now).map keyOf).Nodup := by
  rw [mergedOf_append, List.map_append, mergeLoop_fst_keys]
  have hleft : (((buildMap stored).filter
      (fun p => !(decide (p.1 ∈ (scraped.filter validKeyS).map skey)))).map
        (fun p => p.2)).map keyOf
      = ((buildMap stored).filter
          (fun p => !(decide (p.1 ∈ (scraped.filter validKeyS).map skey)))).map
            Prod.fst := by
    rw [List.map_map]
    refine List.map_congr_left (fun p hp => ?_)
    exact (buildMap_entries stored p (List.mem_filter.mp hp).1).1
  rw [hleft]
  refine List.Nodup.append hN
    (List.Nodup.sublist ((List.filter_sublist _).map Prod.fst)
      (buildMap_nodup_keys stored)) ?_
  intro k hk1 hk2
  rcases List.mem_map.mp hk2 with ⟨p, hp, hpk⟩
  have hnot := (List.mem_filter.mp hp).2
  rw [hpk] at hnot
  simp only [Bool.not_eq_eq_eq_not, Bool.not_true, decide_eq_false_iff_not] at hnot
  exact hnot hk1

theorem mergedOf_validKey (stored : List Ann) (scraped : List Scraped) (now : Int) :
    ∀ a ∈ mergedOf stored scraped now, validKey a = true := by
  intro a ha
  rw [mergedOf_append] at ha
  rcases List.mem_append.mp ha with h | h
  · exact mergeLoop_fst_validKey now scraped (buildMap stored) a h
  · rcases List.mem_map.mp h with ⟨p, hp, hpa⟩
    exact hpa ▸ (buildMap_entries stored p (List.mem_filter.mp hp).1).2.1

/-! ### Lemmas about membership through sorting and id assignment -/

theorem assignIds_mem : ∀ (n : Nat) (l : List Ann) (b : Ann), b ∈ assignIds n l →
    ∃ a ∈ l, b = a ∨ ∃ j, b = { a with id := some j } ∧ idMissing a = true := by
  intro n l
  induction l generalizing n with
  | nil => intro b hb; cases hb
  | cons a rest ih =>
    intro b hb
    by_cases h : idMissing a = true
    · rw [show assignIds n (a :: rest) = { a with id := some n } :: assignIds (n + 1) rest
          from by simp [assignIds, h]] at hb
      rcases List.mem_cons.mp hb with rfl | hb
      · exact ⟨a, List.mem_cons_self a rest, Or.inr ⟨n, rfl, h⟩⟩
      · obtain ⟨x, hx, hbx⟩ := ih (n + 1) b hb
        exact ⟨x, List.mem_cons_of_mem a hx, hbx⟩
    · rw [show assignIds n (a :: rest) = a :: assignIds n rest
          from by simp [assignIds, h]] at hb
      rcases List.mem_cons.mp hb with rfl | hb
      · exact ⟨b, List.mem_cons_self b rest, Or.inl rfl⟩
      · obtain ⟨x, hx, hbx⟩ := ih n b hb
        exact ⟨x, List.mem_cons_of_mem a hx, hbx⟩

theorem assignIds_mem_rev : ∀ (n : Nat) (l : List Ann) (a : Ann), a ∈ l →
    ∃ b ∈ assignIds n l, b = a ∨ ∃ j, b = { a with id := some j } ∧ idMissing a = true := by
  intro n l
  induction l generalizing n with
  | nil => intro a ha; cases ha
  | cons x rest ih =>
    intro a ha
    by_cases h : idMissing x = true
    · rw [show assignIds n (x :: rest) = { x with id := some n } :: assignIds (n + 1) rest
          from by simp [assignIds, h]]
      rcases List.mem_cons.mp ha with rfl | ha
      · exact ⟨{ a with id := some n }, List.mem_cons_self _ _, Or.inr ⟨n, rfl, h⟩⟩
      · obtain ⟨b, hb, hba⟩ := ih (n + 1) a ha
        exact ⟨b, List.mem_cons_of_mem _ hb, hba⟩
    · rw [show assignIds n (x :: rest) = x :: assignIds n rest
          from by simp [assignIds, h]]
      rcases List.mem_cons.mp ha with rfl | ha
      · exact ⟨a, List.mem_cons_self _ _, Or.inl rfl⟩
      · obtain ⟨b, hb, hba⟩ := ih n a ha
        exact ⟨b, List.mem_cons_of_mem _ hb, hba⟩

theorem assignIds_no_missing : ∀ (n : Nat), 1 ≤ n → ∀ (l : List Ann) (b : Ann),
    b ∈ assignIds n l → idMissing b = false := by
  intro n hn l
  induction l generalizing n with
  | nil => intro b hb; cases hb
  | cons a rest ih =>
    intro b hb
    by_cases h : idMissing a = true
    · rw [show assignIds n (a :: rest) = { a with id := some n } :: assignIds (n + 1) rest
          from by simp [assignIds, h]] at hb
      rcases List.mem_cons.mp hb with rfl | hb
      · simp only [idMissing]
        simpa using Nat.pos_iff_ne_zero.mp hn
      · exact ih (n + 1) (Nat.le_succ_of_le hn) b hb
    · rw [show assignIds n (a :: rest) = a :: assignIds n rest
          from by simp [assignIds, h]] at hb
      rcases List.mem_cons.mp hb with rfl | hb
      · simpa using h
      · exact ih n hn b hb

theorem assignIds_of_no_missing : ∀ (n : Nat) (l : List Ann),
    (∀ a ∈ l, idMissing a = false) → assignIds n l = l := by
  intro n l
  induction l generalizing n with
  | nil => intro _; rfl
  | cons a rest ih =>
    intro h
    have ha : idMissing a = false := h a (List.mem_cons_self a rest)
    rw [show assignIds n (a :: rest) = a :: assignIds n rest
        from by simp [assignIds, ha]]
    rw [ih n (fun x hx => h x (List.mem_cons_of_mem a hx))]

theorem staleB_of_lastSeen_now (now : Int) (a : Ann)
    (h : a.last_seen = some (some now)) : staleB now a = false := by
  have hlt : ¬ (now < now - STALE_AFTER) := by
    unfold STALE_AFTER
    omega
  simp [staleB, parseIso, h, hlt]

theorem upId_keyOf (a : Ann) (j : Nat) : keyOf { a with id := some j } = keyOf a := rfl

theorem upId_staleB (now : Int) (a : Ann) (j : Nat) :
    staleB now { a with id := some j } = staleB now a := rfl

theorem out_mem_src (stored : List Ann) (scraped : List Scraped) (now : Int)
    (b : Ann) (hb : b ∈ (reconcile stored scraped now).1) :
    ∃ a ∈ prunedOf stored scraped now,
      b = a ∨ ∃ j, b = { a with id := some j } ∧ idMissing a = true := by
  obtain ⟨a, ha, hab⟩ := assignIds_mem _ _ b hb
  exact ⟨a, (sortStep_perm _).mem_iff.mp ha, hab⟩

theorem out_mem_rev (stored : List Ann) (scraped : List Scraped) (now : Int)
    (a : Ann) (ha : a ∈ prunedOf stored scraped now) :
    ∃ b ∈ (reconcile stored scraped now).1,
      b = a ∨ ∃ j, b = { a with id := some j } ∧ idMissing a = true :=
  assignIds_mem_rev _ _ a ((sortStep_perm _).mem_iff.mpr ha)

theorem out_keys_perm (stored : List Ann) (scraped : List Scraped) (now : Int) :
    ((reconcile stored scraped now).1.map keyOf).Perm
      ((prunedOf stored scraped now).map keyOf) := by
  rw [show (reconcile stored scraped now).1
      = assignIds (maxIdOf (prunedOf stored scraped now) + 1)
          (sortStep (prunedOf stored scraped now)) from rfl]
  rw [assignIds_map_keyOf]
  exact (sortStep_perm _).map keyOf

theorem out_keys_nodup (stored : List Ann) (scraped : List Scraped) (now : Int)
    (hN : ((scraped.filter validKeyS).map skey).Nodup) :
    (((reconcile stored scraped now).1).map keyOf).Nodup := by
  rw [(out_keys_perm stored scraped now).nodup_iff]
  exact List.Nodup.sublist ((List.filter_sublist _).map keyOf)
    (mergedOf_keys_nodup stored scraped now hN)

theorem out_not_stale (stored : List Ann) (scraped : List Scraped) (now : Int) :
    ∀ b ∈ (reconcile stored scraped now).1, staleB now b = false := by
  intro b hb
  obtain ⟨a, ha, hab⟩ := out_mem_src stored scraped now b hb
  have ha2 : staleB now a = false := by
    have := (List.mem_filter.mp ha).2
    simpa using this
  rcases hab with rfl | ⟨j, rfl, -⟩
  · exact ha2
  · rw [upId_staleB]; exact ha2

theorem out_no_missing (stored : List Ann) (scraped : List Scraped) (now : Int) :
    ∀ b ∈ (reconcile stored scraped now).1, idMissing b = false :=
  fun b hb => assignIds_no_missing _ (Nat.succ_le_succ (Nat.zero_le _)) _ b hb

theorem out_validKey (stored : List Ann) (scraped : List Scraped) (now : Int) :
    ∀ b ∈ (reconcile stored scraped now).1, validKey b = true := by
  intro b hb
  obtain ⟨a, ha, hab⟩ := out_mem_src stored scraped now b hb
  have hav : validKey a = true :=
    mergedOf_validKey stored scraped now a (List.mem_filter.mp ha).1
  rcases hab with rfl | ⟨j, rfl, -⟩
  · exact hav
  · exact hav

/-! ### Claim C3: pruning -/

/-- A stored record with an empty `link`: `fetch_and_save` never puts it into
`existing_by_key`, so it is silently dropped regardless of freshness. -/
def c3Bad : Ann :=
  { title := "keyless", summary := "", body := "", link := "", category := "PNRR Futura",
    source := "d", school_id := "sch", school_name := "S", city := "C",
    date := some 5, status := "Published", tags := [], highlight := false,
    attachments := [], id := some 1, first_seen := some (some 0),
    last_seen := some (some 0) }

/-- C3 counterexample: the claim says every item whose `last_seen` is within
180 days of now is retained and pruning is the only removal path; but a
stored item with an empty `link` (valid `last_seen` = now) is dropped by the
keying step of the merge, not by pruning. -/
theorem C3_counterexample :
    staleB 0 c3Bad = false ∧ (reconcile [c3Bad] [] 0).1 = [] := by decide

/-- C3 as amended: restricted to stored snapshots whose records all carry a
non-empty `(school_id, link)` key, pairwise distinct (the store invariant):
(a) an untouched item that is not stale (`last_seen` within 180 days) is
retained; (b) an untouched stale item (`last_seen` older than 180 days) is
removed; (c) every validly scraped item is retained (its `last_seen` is set
to now); (d) no other key ever appears - items only come from the stored
snapshot or from the scrape, so staleness pruning is the only removal path
for validly keyed stored items. -/
theorem C3_amended_prune (stored : List Ann) (scraped : List Scraped) (now : Int)
    (hv : ∀ a ∈ stored, validKey a = true)
    (hnd : (stored.map keyOf).Nodup) :
    (∀ a ∈ stored, keyOf a ∉ (scraped.filter validKeyS).map skey →
      staleB now a = false →
      ∃ b ∈ (reconcile stored scraped now).1, keyOf b = keyOf a) ∧
    (∀ a ∈ stored, keyOf a ∉ (scraped.filter validKeyS).map skey →
      staleB now a = true →
      ∀ b ∈ (reconcile stored scraped now).1, keyOf b ≠ keyOf a) ∧
    (∀ s ∈ scraped, validKeyS s = true →
      ∃ b ∈ (reconcile stored scraped now).1, keyOf b = skey s) ∧
    (∀ b ∈ (reconcile stored scraped now).1,
      keyOf b ∈ stored.map keyOf ∨
        keyOf b ∈ (scraped.filter validKeyS).map skey) := by
  have hbm := buildMap_eq_map stored hv hnd
  refine ⟨?_, ?_, ?_, ?_⟩
  · -- (a) untouched, fresh: retained
    intro a ha hnotin hfresh
    have hpair : (keyOf a, a) ∈ buildMap stored := by
      rw [hbm]
      exact List.mem_map_of_mem _ ha
    have hfilt : (keyOf a, a) ∈ (buildMap stored).filter
        (fun p => !(decide (p.1 ∈ (scraped.filter validKeyS).map skey))) :=
      List.mem_filter.mpr ⟨hpair, by simpa using hnotin⟩
    have hmerged : a ∈ mergedOf stored scraped now := by
      rw [mergedOf_append]
      exact List.mem_append.mpr (Or.inr (List.mem_map.mpr ⟨(keyOf a, a), hfilt, rfl⟩))
    have hpruned : a ∈ prunedOf stored scraped now :=
      List.mem_filter.mpr ⟨hmerged, by simp [hfresh]⟩
    obtain ⟨b, hb, hba⟩ := out_mem_rev stored scraped now a hpruned
    refine ⟨b, hb, ?_⟩
    rcases hba with rfl | ⟨j, rfl, -⟩
    · rfl
    · rfl
  · -- (b) untouched, stale: removed
    intro a ha hnotin hstale b hb hkey
    obtain ⟨x, hx, hbx⟩ := out_mem_src stored scraped now b hb
    have hxkey : keyOf x = keyOf a := by
      rcases hbx with rfl | ⟨j, rfl, -⟩
      · exact hkey
      · exact hkey
    have hxfresh : staleB now x = false := by
      simpa using (List.mem_filter.mp hx).2
    have hxmerged := (List.mem_filter.mp hx).1
    rw [mergedOf_append] at hxmerged
    rcases List.mem_append.mp hxmerged with h1 | h1
    · have hmem : keyOf x ∈ (mergeLoop now scraped (buildMap stored)).1.map keyOf :=
        List.mem_map_of_mem keyOf h1
      rw [mergeLoop_fst_keys] at hmem
      exact hnotin (hxkey ▸ hmem)
    · rcases List.mem_map.mp h1 with ⟨p, hp, hpx⟩
      have hpbm := (List.mem_filter.mp hp).1
      rw [hbm] at hpbm
      rcases List.mem_map.mp hpbm with ⟨a', ha', hpa'⟩
      have hxa' : x = a' := by rw [← hpx, ← hpa']
      have hkeyeq : keyOf a' = keyOf a := hxa' ▸ hxkey
      have haa : a' = a := List.inj_on_of_nodup_map hnd ha' ha hkeyeq
      rw [hxa', haa] at hxfresh
      rw [hstale] at hxfresh
      cases hxfresh
  · -- (c) touched items are retained
    intro s hs hvs
    have hkey : skey s ∈ (mergeLoop now scraped (buildMap stored)).1.map keyOf := by
      rw [mergeLoop_fst_keys]
      exact List.mem_map_of_mem skey (List.mem_filter.mpr ⟨hs, hvs⟩)
    rcases List.mem_map.mp hkey with ⟨x, hx, hxkey⟩
    have hls := mergeLoop_fst_lastSeen now scraped (buildMap stored) x hx
    have hxs : staleB now x = false := staleB_of_lastSeen_now now x hls
    have hxm : x ∈ mergedOf stored scraped now := by
      rw [mergedOf_append]
      exact List.mem_append.mpr (Or.inl hx)
    have hxp : x ∈ prunedOf stored scraped now :=
      List.mem_filter.mpr ⟨hxm, by simp [hxs]⟩
    obtain ⟨b, hb, hbx⟩ := out_mem_rev stored scraped now x hxp
    refine ⟨b, hb, ?_⟩
    rcases hbx with rfl | ⟨j, rfl, -⟩
    · exact hxkey
    · exact hxkey
  · -- (d) everything in the snapshot has a stored or scraped key
    intro b hb
    obtain ⟨x, hx, hbx⟩ := out_mem_src stored scraped now b hb
    have hkeybx : keyOf b = keyOf x := by
      rcases hbx with rfl | ⟨j, rfl, -⟩
      · rfl
      · rfl
    have hxm := (List.mem_filter.mp hx).1
    rw [mergedOf_append] at hxm
    rcases List.mem_append.mp hxm with h1 | h1
    · right
      rw [hkeybx, ← mergeLoop_fst_keys now scraped (buildMap stored)]
      exact List.mem_map_of_mem keyOf h1
    · left
      rcases List.mem_map.mp h1 with ⟨p, hp, hpx⟩
      have hent := buildMap_entries stored p (List.mem_filter.mp hp).1
      rw [hkeybx, ← hpx]
      exact List.mem_map.mpr ⟨p.2, hent.2.2, rfl⟩

/-- A fresh stored item (`last_seen` = now − 179 days), untouched this run. -/
def c3Fresh : Ann :=
  { title := "fresh", summary := "", body := "", link := "l1", category := "PNRR Futura",
    source := "d", school_id := "sch", school_name := "S", city := "C",
    date := some 5, status := "Published", tags := [], highlight := false,
    attachments := [], id := some 1, first_seen := some (some 0),
    last_seen := some (some 21) }

/-- A stale stored item (`last_seen` = now − 181 days), untouched this run. -/
def c3Stale : Ann :=
  { title := "stale", summary := "", body := "", link := "l2", category := "PNRR Futura",
    source := "d", school_id := "sch", school_name := "S", city := "C",
    date := some 5, status := "Published", tags := [], highlight := false,
    attachments := [], id := some 2, first_seen := some (some 0),
    last_seen := some (some 19) }

/-- Witness for C3 at now = day 200: the item last seen on day 21
(179 days ago) is retained, the one last seen on day 19 (181 days ago)
is removed. -/
theorem C3_amended_prune_witness :
    (∃ b ∈ (reconcile [c3Fresh, c3Stale] [] 200).1, keyOf b = ("sch", "l1")) ∧
    (∀ b ∈ (reconcile [c3Fresh, c3Stale] [] 200).1, keyOf b ≠ ("sch", "l2")) := by
  obtain ⟨ha, hb, -, -⟩ :=
    C3_amended_prune [c3Fresh, c3Stale] [] 200 (by decide) (by decide)
  exact ⟨ha c3Fresh (by decide) (by decide) (by decide),
    hb c3Stale (by decide) (by decide) (by decide)⟩

/-! ### Claim C4: key uniqueness of the merged snapshot -/

/-- C4 counterexample: the claim quantifies over every batch of scraped
items; a batch containing the same `(school_id, link)` twice produces two
announcements with the same key (the second occurrence no longer finds the
key in `existing_by_key` after the first popped it, so it is treated as
new). -/
theorem C4_counterexample :
    ¬ List.Pairwise (fun a b : Ann => keyOf a ≠ keyOf b)
      (reconcile [] [c1A, c1A] 0).1 := by decide

/-- C4 as amended: when the scraped batch itself has pairwise-distinct valid
keys (which the per-school link de-duplication of
`_scrape_school_announcements` guarantees), any two announcements of the
merged snapshot have distinct `(school_id, link)` keys. -/
theorem C4_amended_distinct_keys (stored : List Ann) (scraped : List Scraped)
    (now : Int) (hstored : (stored.map keyOf).Nodup)
    (hN : ((scraped.filter validKeyS).map skey).Nodup) :
    List.Pairwise (fun a b : Ann => keyOf a ≠ keyOf b)
      (reconcile stored scraped now).1 :=
  (List.pairwise_map (f := keyOf)).mp (out_keys_nodup stored scraped now hN)

/-- Witness for C4: one stored item, one scraped item, distinct keys. -/
theorem C4_amended_distinct_keys_witness :
    List.Pairwise (fun a b : Ann => keyOf a ≠ keyOf b)
      (reconcile [c3Fresh] [c1A] 0).1 :=
  C4_amended_distinct_keys [c3Fresh] [c1A] 0 (by decide) (by decide)

/-! ### Claim C5: idempotence of reconciliation -/

theorem find?_key_unique : ∀ (l : List Ann), ((l.map keyOf).Nodup) →
    ∀ (b : Ann) (k : Key), b ∈ l → keyOf b = k →
      l.find? (fun a => decide (keyOf a = k)) = some b
  | [], _, b, _, hb, _ => by cases hb
  | x :: rest, hnd, b, k, hb, hbk => by
    rcases List.mem_cons.mp hb with rfl | hb
    · rw [List.find?_cons_of_pos]
      simpa using hbk
    · have hx_notin : keyOf x ∉ rest.map keyOf := by
        rw [List.map_cons] at hnd
        exact (List.nodup_cons.mp hnd).1
      have hxk : ¬ (keyOf x = k) := by
        intro hxk
        refine hx_notin ?_
        rw [hxk, ← hbk]
        exact List.mem_map_of_mem keyOf hb
      rw [List.find?_cons_of_neg _ (by simpa using hxk)]
      refine find?_key_unique rest ?_ b k hb hbk
      rw [List.map_cons] at hnd
      exact hnd.of_cons

theorem lookupA_map_pair : ∀ (l : List Ann) (k : Key),
    lookupA (l.map (fun a => (keyOf a, a))) k
      = l.find? (fun a => decide (keyOf a = k))
  | [], _ => rfl
  | x :: rest, k => by
    by_cases hx : keyOf x = k
    · rw [List.map_cons, lookupA_cons_pos _ _ _ hx,
        List.find?_cons_of_pos _ (by simpa using hx)]
    · rw [List.map_cons, lookupA_cons_neg _ _ _ hx,
        List.find?_cons_of_neg _ (by simpa using hx)]
      exact lookupA_map_pair rest k

theorem leftover_map_pair (l : List Ann) (ks : List Key) :
    ((l.map (fun a => (keyOf a, a))).filter
        (fun p => !(decide (p.1 ∈ ks)))).map (fun p => p.2)
      = l.filter (fun a => !(decide (keyOf a ∈ ks))) := by
  rw [List.filter_map, List.map_map]
  have h1 : ((fun p : Key × Ann => p.2) ∘ fun a => (keyOf a, a)) = fun a => a := rfl
  have h2 : ((fun p : Key × Ann => !(decide (p.1 ∈ ks))) ∘ fun a => (keyOf a, a))
      = fun a => !(decide (keyOf a ∈ ks)) := rfl
  rw [h1, h2]
  simp

/-- Every validly scraped item appears in the run's snapshot as a record
built from its scraped fields, a non-zero id, some `first_seen`, and
`last_seen = now`. -/
theorem out_scraped_shape (stored : List Ann) (scraped : List Scraped) (now : Int)
    (hN : ((scraped.filter validKeyS).map skey).Nodup) :
    ∀ s ∈ scraped.filter validKeyS,
      ∃ b ∈ (reconcile stored scraped now).1,
        ∃ (j : Nat) (f : TStr), ¬ j = 0 ∧
          b = mkAnn s (some j) (some f) (some (some now)) := by
  intro s hs
  have hfst := mergeLoop_fst_eq_map now scraped (buildMap stored) hN
  have hx : mergeOne (buildMap stored) now s
      ∈ (mergeLoop now scraped (buildMap stored)).1 := by
    rw [hfst]
    exact List.mem_map_of_mem _ hs
  have hxshape : ∃ (i : Option Nat) (f : TStr),
      mergeOne (buildMap stored) now s = mkAnn s i (some f) (some (some now)) := by
    unfold mergeOne
    cases hl : lookupA (buildMap stored) (skey s) with
    | some ex => exact ⟨ex.id, ex.first_seen.getD (some now), rfl⟩
    | none => exact ⟨none, some now, rfl⟩
  obtain ⟨i, f, hxeq⟩ := hxshape
  have hxm : mergeOne (buildMap stored) now s ∈ mergedOf stored scraped now := by
    rw [mergedOf_append]
    exact List.mem_append.mpr (Or.inl hx)
  have hxfresh : staleB now (mergeOne (buildMap stored) now s) = false :=
    staleB_of_lastSeen_now now _ (by rw [hxeq]; rfl)
  have hxp : mergeOne (buildMap stored) now s ∈ prunedOf stored scraped now :=
    List.mem_filter.mpr ⟨hxm, by simp [hxfresh]⟩
  obtain ⟨b, hb, hbx⟩ := out_mem_rev stored scraped now _ hxp
  have hbmiss : idMissing b = false := out_no_missing stored scraped now b hb
  rcases hbx with rfl | ⟨j, rfl, hmiss⟩
  · refine ⟨mergeOne (buildMap stored) now s, hb, ?_⟩
    rw [hxeq] at hbmiss ⊢
    cases i with
    | none => simp [idMissing, mkAnn] at hbmiss
    | some j =>
      refine ⟨j, f, ?_, rfl⟩
      simpa [idMissing, mkAnn] using hbmiss
  · refine ⟨{ mergeOne (buildMap stored) now s with id := some j }, hb, j, f, ?_, ?_⟩
    · simpa [idMissing] using hbmiss
    · rw [hxeq]
      rfl

/-- C5 as amended: when the scraped batch's valid-key items have
pairwise-distinct keys, reconciling a second time with the identical scraped
input (at the same run time) against the snapshot the first run produced
yields, for every `(school_id, link)` key, exactly the same announcement -
same `id`, `first_seen`, and all content fields (here even `last_seen` is
unchanged since the run time is the same). -/
theorem C5_amended_idempotent (stored : List Ann) (scraped : List Scraped)
    (now : Int) (hN : ((scraped.filter validKeyS).map skey).Nodup) :
    ∀ k : Key,
      (reconcile (reconcile stored scraped now).1 scraped now).1.find?
          (fun a => decide (keyOf a = k))
        = (reconcile stored scraped now).1.find?
            (fun a => decide (keyOf a = k)) := by
  set out1 := (reconcile stored scraped now).1 with hout1
  have P_valid := out_validKey stored scraped now
  have P_nodup := out_keys_nodup stored scraped now hN
  have P_nomiss := out_no_missing stored scraped now
  have P_fresh := out_not_stale stored scraped now
  have hbm2 : buildMap out1 = out1.map (fun a => (keyOf a, a)) :=
    buildMap_eq_map out1 P_valid P_nodup
  have hA : ∀ s ∈ scraped.filter validKeyS,
      mergeOne (buildMap out1) now s ∈ out1 ∧
        keyOf (mergeOne (buildMap out1) now s) = skey s := by
    intro s hs
    obtain ⟨b, hb, j, f, hj, hbeq⟩ := out_scraped_shape stored scraped now hN s hs
    have hfind : out1.find? (fun a => decide (keyOf a = skey s)) = some b :=
      find?_key_unique out1 P_nodup b (skey s) hb (by rw [hbeq]; rfl)
    have hlook : lookupA (buildMap out1) (skey s) = some b := by
      rw [hbm2, lookupA_map_pair, hfind]
    have hmerge : mergeOne (buildMap out1) now s = b := by
      simp only [mergeOne, hlook]
      rw [hbeq]
      rfl
    rw [hmerge]
    exact ⟨hb, by rw [hbeq]; rfl⟩
  have hfst2 : (mergeLoop now scraped (buildMap out1)).1
      = (scraped.filter validKeyS).map (mergeOne (buildMap out1) now) :=
    mergeLoop_fst_eq_map now scraped (buildMap out1) hN
  have hleft2 : ((buildMap out1).filter
        (fun p => !(decide (p.1 ∈ (scraped.filter validKeyS).map skey)))).map
          (fun p => p.2)
      = out1.filter
          (fun a => !(decide (keyOf a ∈ (scraped.filter validKeyS).map skey))) := by
    rw [hbm2, leftover_map_pair]
  have hmerged2 : mergedOf out1 scraped now
      = (scraped.filter validKeyS).map (mergeOne (buildMap out1) now)
        ++ out1.filter
            (fun a => !(decide (keyOf a ∈ (scraped.filter validKeyS).map skey))) := by
    rw [mergedOf_append, hfst2, hleft2]
  have hsub : ∀ x ∈ mergedOf out1 scraped now, x ∈ out1 := by
    intro x hx
    rw [hmerged2] at hx
    rcases List.mem_append.mp hx with h1 | h1
    · rcases List.mem_map.mp h1 with ⟨s, hs, hsx⟩
      exact hsx ▸ (hA s hs).1
    · exact (List.mem_filter.mp h1).1
  have hpruned2 : prunedOf out1 scraped now = mergedOf out1 scraped now := by
    unfold prunedOf
    refine List.filter_eq_self.mpr (fun a ha => ?_)
    simp [P_fresh a (hsub a ha)]
  have hnomiss2 : ∀ a ∈ sortStep (prunedOf out1 scraped now), idMissing a = false := by
    intro a ha
    have ham : a ∈ prunedOf out1 scraped now := (sortStep_perm _).mem_iff.mp ha
    rw [hpruned2] at ham
    exact P_nomiss a (hsub a ham)
  have hout2 : (reconcile out1 scraped now).1 = sortStep (prunedOf out1 scraped now) :=
    assignIds_of_no_missing _ _ hnomiss2
  have hmem2 : ∀ b : Ann,
      b ∈ (reconcile out1 scraped now).1 ↔ b ∈ mergedOf out1 scraped now := by
    intro b
    rw [hout2, (sortStep_perm _).mem_iff, hpruned2]
  have hsub21 : ∀ b ∈ (reconcile out1 scraped now).1, b ∈ out1 :=
    fun b hb => hsub b ((hmem2 b).mp hb)
  have hsub12 : ∀ b ∈ out1, b ∈ (reconcile out1 scraped now).1 := by
    intro b hb
    rw [hmem2 b, hmerged2]
    by_cases hk : keyOf b ∈ (scraped.filter validKeyS).map skey
    · rcases List.mem_map.mp hk with ⟨s, hs, hsk⟩
      refine List.mem_append.mpr (Or.inl ?_)
      have hAs := hA s hs
      have heq : mergeOne (buildMap out1) now s = b := by
        refine List.inj_on_of_nodup_map P_nodup hAs.1 hb ?_
        rw [hAs.2, hsk]
      exact heq ▸ List.mem_map_of_mem _ hs
    · exact List.mem_append.mpr (Or.inr (List.mem_filter.mpr ⟨hb, by simpa using hk⟩))
  have P_nodup2 := out_keys_nodup out1 scraped now hN
  intro k
  by_cases hk : ∃ b ∈ out1, keyOf b = k
  · obtain ⟨b, hb, hbk⟩ := hk
    rw [find?_key_unique out1 P_nodup b k hb hbk,
      find?_key_unique _ P_nodup2 b k (hsub12 b hb) hbk]
  · push_neg at hk
    have h2 : (reconcile out1 scraped now).1.find?
        (fun a => decide (keyOf a = k)) = none :=
      List.find?_eq_none.mpr (fun x hx => by simpa using hk x (hsub21 x hx))
    have h1 : out1.find? (fun a => decide (keyOf a = k)) = none :=
      List.find?_eq_none.mpr (fun x hx => by simpa using hk x hx)
    rw [h2, h1]

/-- C5 counterexample: with a scraped batch that repeats one key, the ids
are NOT stable across a second run with identical input: the first run
yields ids 1 and 2, the second run yields 2 and 3. -/
theorem C5_counterexample :
    ((reconcile [] [c1A, c1A] 0).1.map (fun a => a.id) = [some 1, some 2]) ∧
    ((reconcile (reconcile [] [c1A, c1A] 0).1 [c1A, c1A] 0).1.map (fun a => a.id)
      = [some 2, some 3]) := by decide

/-- Witness for C5: a single scraped item, reconciled twice against an
initially empty store; the snapshot entry at its key is unchanged. -/
theorem C5_amended_idempotent_witness :
    (reconcile (reconcile [] [c1A] 5).1 [c1A] 5).1.find?
        (fun a => decide (keyOf a = ("sch", "la")))
      = (reconcile [] [c1A] 5).1.find? (fun a => decide (keyOf a = ("sch", "la"))) :=
  C5_amended_idempotent [] [c1A] 5 (by decide) ("sch", "la")

/-! ### Notification dedup (`notification_service.py`, local-JSON backend:
no Mongo collection configured, `BlobJsonStore` on the local path, where
`save_with_generation` always succeeds on the first attempt).  Email
transport (`EmailService.send_text`) is modelled as always succeeding; a
send is recorded as an event `(recipient, items)`. -/

/-- The `Subscriber` dataclass: `school_ids = None` means all schools. -/
structure Subscriber where
  email : String
  school_ids : Option (List String)
  deriving DecidableEq

/-- `_announcement_key`: `"{school_id}|{link}"`, `None` when either part is
falsy. -/
def annKeyN (a : Ann) : Option String :=
  if a.school_id ≠ "" ∧ a.link ≠ "" then some (a.school_id ++ "|" ++ a.link)
  else none

/-- The per-subscriber notification stores (one JSON document per email
digest), modelled as a keyed store from email to its `sent_keys` list. -/
abbrev SentState := List (String × List String)

/-- `store.load({"sent_keys": []})`: the stored list, `[]` if absent. -/
def loadSent : SentState → String → List String
  | [], _ => []
  | p :: rest, email => if p.1 = email then p.2 else loadSent rest email

/-- Writing a subscriber's notification document. -/
def storeSent : SentState → String → List String → SentState
  | [], email, v => [(email, v)]
  | p :: rest, email, v =>
    if p.1 = email then (email, v) :: rest else p :: storeSent rest email v

/-- `_filter_by_subscriber`: unfiltered when `school_ids` is falsy
(`None` or empty), else keep items whose `school_id` is in the set. -/
def filterBySubscriber (sub : Subscriber) (anns : List Ann) : List Ann :=
  match sub.school_ids with
  | none => anns
  | some ids =>
    if ids.isEmpty then anns
    else anns.filter (fun a => decide (a.school_id ∈ ids))

/-- `_filter_unsent_json`: short-circuit to `[]` when no item has a valid
key; otherwise drop the items whose key is in the loaded sent-set (items
with key `None` always pass the `not in` test). -/
def filterUnsent (st : SentState) (email : String) (anns : List Ann) : List Ann :=
  if ((anns.map annKeyN).filterMap (fun k => k)).isEmpty then []
  else anns.filter (fun a =>
    match annKeyN a with
    | some k => !(decide (k ∈ loadSent st email))
    | none => true)

def strLeB (s t : String) : Bool := charListLe s.data t.data

def strLeR (s t : String) : Prop := strLeB s t = true

instance : DecidableRel strLeR :=
  fun s t => inferInstanceAs (Decidable (strLeB s t = true))

/-- Python `sorted` on strings (code-point order). -/
def sortStrings (l : List String) : List String :=
  List.insertionSort strLeR l

/-- `_record_sent_json` (local backend): load the sent-set, union in the new
keys (`set(...).update`, compared by distinct count), and save the sorted
result; skip the write when nothing is new. -/
def recordSent (st : SentState) (email : String) (anns : List Ann) : SentState :=
  if ((anns.map annKeyN).filterMap (fun k => k)).isEmpty then st
  else if ((loadSent st email) ++ (anns.map annKeyN).filterMap (fun k => k)).dedup.length
      = (loadSent st email).dedup.length then st
  else storeSent st email
    (sortStrings (((loadSent st email) ++ (anns.map annKeyN).filterMap (fun k => k)).dedup))

/-- One subscriber's round inside `notify`: scope filter, dedup filter,
then (when non-empty) send one email and record the keys. -/
def notifyOne (st : SentState) (items : List Ann) (sub : Subscriber) :
    SentState × Option (String × List Ann) :=
  let subset := filterUnsent st sub.email (filterBySubscriber sub items)
  if subset.isEmpty then (st, none)
  else (recordSent st sub.email subset, some (sub.email, subset))

/-- `notify(subscribers, new_announcements)`: returns
`(emails sent, final stores, send events)`. -/
def notify (subs : List Subscriber) (items : List Ann) (st : SentState) :
    Nat × SentState × List (String × List Ann) :=
  if items.isEmpty then (0, st, [])
  else
    subs.foldl
      (fun acc sub =>
        match notifyOne acc.2.1 items sub with
        | (st', some ev) => (acc.1 + 1, st', acc.2.2 ++ [ev])
        | (st', none) => (acc.1, st', acc.2.2))
      (0, st, [])

/-- The claim's scope test: all items when the scope is empty or absent. -/
def inScope (sub : Subscriber) (a : Ann) : Bool :=
  match sub.school_ids with
  | none => true
  | some ids => if ids.isEmpty then true else decide (a.school_id ∈ ids)

/-- The claim's `(school_id, link)` key of an item, in the store encoding. -/
def claimKeyStr (a : Ann) : String := a.school_id ++ "|" ++ a.link

/-- Modelled from the claim's words, for comparison with the code: the items
whose `school_id` lies in the subscriber's scope and whose key is not in the
persisted sent-set. -/
def claimedSelection (sub : Subscriber) (st : SentState) (items : List Ann) :
    List Ann :=
  items.filter (fun a =>
    inScope sub a && !(decide (claimKeyStr a ∈ loadSent st sub.email)))

/-! ### C8 helper lemmas -/

theorem annKeyN_of_valid (a : Ann) (h : validKey a = true) :
    annKeyN a = some (claimKeyStr a) := by
  unfold annKeyN claimKeyStr
  rw [if_pos (of_decide_eq_true h)]

theorem loadSent_storeSent : ∀ (st : SentState) (email : String) (v : List String),
    loadSent (storeSent st email v) email = v
  | [], email, v => by simp [storeSent, loadSent]
  | p :: rest, email, v => by
    by_cases hp : p.1 = email
    · simp [storeSent, loadSent, hp]
    · simp [storeSent, loadSent, hp, loadSent_storeSent rest email v]

theorem keys_of_valid : ∀ (l : List Ann), (∀ a ∈ l, validKey a = true) →
    (l.map annKeyN).filterMap (fun k => k) = l.map claimKeyStr
  | [], _ => rfl
  | a :: rest, h => by
    rw [List.map_cons, List.filterMap_cons,
      annKeyN_of_valid a (h a (List.mem_cons_self a rest)), List.map_cons]
    rw [keys_of_valid rest (fun x hx => h x (List.mem_cons_of_mem a hx))]

theorem scoped_eq_filter (sub : Subscriber) (items : List Ann) :
    filterBySubscriber sub items = items.filter (fun a => inScope sub a) := by
  unfold filterBySubscriber inScope
  cases sub.school_ids with
  | none => exact (List.filter_true items).symm
  | some ids =>
    show (if ids.isEmpty then items else items.filter (fun a => decide (a.school_id ∈ ids)))
      = items.filter (fun a => if ids.isEmpty then true else decide (a.school_id ∈ ids))
    by_cases he : ids.isEmpty
    · rw [if_pos he]
      refine ((List.filter_congr (fun a _ => if_pos he)).trans (List.filter_true items)).symm
    · rw [if_neg he]
      exact (List.filter_congr (fun a _ => (if_neg he).symm))

/-- For key lists disjoint from nothing new, the merged dedup length check of
`_record_sent_json` can only be an equality when every new key was already
present. -/
theorem mem_of_dedup_length_eq (sent keys : List String)
    (h : (sent ++ keys).dedup.length = sent.dedup.length) :
    ∀ k ∈ keys, k ∈ sent := by
  intro k hk
  have hsub : sent.toFinset ⊆ (sent ++ keys).toFinset := by
    intro x hx
    rw [List.mem_toFinset] at hx
    rw [List.mem_toFinset]
    exact List.mem_append.mpr (Or.inl hx)
  have hcard : (sent ++ keys).toFinset.card ≤ sent.toFinset.card := by
    rw [List.card_toFinset, List.card_toFinset, h]
  have heq : sent.toFinset = (sent ++ keys).toFinset :=
    Finset.eq_of_subset_of_card_le hsub hcard
  have hkmem : k ∈ (sent ++ keys).toFinset :=
    List.mem_toFinset.mpr (List.mem_append.mpr (Or.inr hk))
  rw [← heq, List.mem_toFinset] at hkmem
  exact hkmem

theorem mem_sortStrings (l : List String) (k : String) :
    k ∈ sortStrings l ↔ k ∈ l :=
  (List.perm_insertionSort strLeR l).mem_iff

/-- The code's per-subscriber selection equals the claim's selection, as
long as every item carries a valid `(school_id, link)` key. -/
theorem subset_eq_claimed (sub : Subscriber) (st : SentState) (items : List Ann)
    (hvk : ∀ a ∈ items, validKey a = true) :
    filterUnsent st sub.email (filterBySubscriber sub items)
      = claimedSelection sub st items := by
  rw [scoped_eq_filter]
  cases hsc : items.filter (fun a => inScope sub a) with
  | nil =>
    have hn : ∀ a ∈ items, ¬ (inScope sub a = true) := by
      intro a ha hin
      have hmem : a ∈ items.filter (fun a => inScope sub a) :=
        List.mem_filter.mpr ⟨ha, hin⟩
      rw [hsc] at hmem
      cases hmem
    have hrhs : claimedSelection sub st items = [] := by
      refine List.filter_eq_nil_iff.mpr (fun a ha => ?_)
      simp only [Bool.and_eq_true, not_and]
      intro hin
      exact absurd hin (hn a ha)
    rw [hrhs]
    rfl
  | cons a0 rest0 =>
    have hvk' : ∀ a ∈ items.filter (fun a => inScope sub a), validKey a = true :=
      fun a ha => hvk a (List.mem_filter.mp ha).1
    rw [hsc] at hvk'
    have ha0v : validKey a0 = true := hvk' a0 (List.mem_cons_self a0 rest0)
    have hkeys : ((a0 :: rest0).map annKeyN).filterMap (fun k => k)
        = (a0 :: rest0).map claimKeyStr :=
      keys_of_valid (a0 :: rest0) hvk'
    have hne : ¬ ((((a0 :: rest0).map annKeyN).filterMap (fun k => k)).isEmpty = true) := by
      rw [hkeys]
      simp
    unfold filterUnsent
    rw [if_neg hne, ← hsc, List.filter_filter]
    refine List.filter_congr (fun a ha => ?_)
    rw [annKeyN_of_valid a (hvk a ha)]
    exact Bool.and_comm _ _

/-! ### Claim C8: notification scope, dedup and recording -/

/-- An announcement with an empty `link`: `_announcement_key` returns `None`
for it. -/
def c8Bad : Ann :=
  { title := "t", summary := "", body := "", link := "", category := "PNRR Futura",
    source := "d", school_id := "A", school_name := "S", city := "C",
    date := some 1, status := "Published", tags := [], highlight := false,
    attachments := [], id := some 1, first_seen := some (some 0),
    last_seen := some (some 0) }

/-- A subscriber with no scope (all schools). -/
def c8Sub : Subscriber := { email := "u@example.com", school_ids := none }

/-- C8 counterexample: the claim says the subscriber is sent exactly the
in-scope items whose key is not in the sent-set; for an item with an empty
`link` (in scope, key not in the empty sent-set) the claim demands a send,
but `_filter_unsent_json` finds no valid key in the batch and returns `[]`,
so `notify` sends nothing. -/
theorem C8_counterexample :
    claimedSelection c8Sub [] [c8Bad] = [c8Bad] ∧
    notify [c8Sub] [c8Bad] [] = (0, [], []) := by decide

/-- C8 as amended (restricted to batches whose items all carry a non-empty
`(school_id, link)` key, and stated per subscriber - `notify` processes
subscribers independently against per-email stores): `notify` sends the
subscriber exactly the items in scope (all items when the scope is empty or
absent) whose key is not in the persisted sent-set, in one email; it records
exactly the sent keys; and running `notify` again with the same items sends
nothing. -/
theorem C8_amended_notify (sub : Subscriber) (items : List Ann) (st : SentState)
    (hvk : ∀ a ∈ items, validKey a = true) :
    ((notify [sub] items st).2.2
        = if (claimedSelection sub st items).isEmpty then []
          else [(sub.email, claimedSelection sub st items)]) ∧
    ((notify [sub] items st).1
        = if (claimedSelection sub st items).isEmpty then 0 else 1) ∧
    (∀ kk, kk ∈ loadSent (notify [sub] items st).2.1 sub.email ↔
        (kk ∈ loadSent st sub.email ∨
          ∃ a ∈ claimedSelection sub st items, claimKeyStr a = kk)) ∧
    ((notify [sub] items (notify [sub] items st).2.1).1 = 0) ∧
    ((notify [sub] items (notify [sub] items st).2.1).2.2 = []) := by
  by_cases hil : items.isEmpty = true
  · have hit : items = [] := List.isEmpty_iff.mp hil
    subst hit
    refine ⟨by simp [notify, claimedSelection], by simp [notify, claimedSelection],
      ?_, by simp [notify], by simp [notify]⟩
    intro kk
    simp [notify, claimedSelection]
  · have hsubset := subset_eq_claimed sub st items hvk
    by_cases hce : (claimedSelection sub st items).isEmpty = true
    · -- nothing to send: the state is unchanged
      have hnone : notifyOne st items sub = (st, none) := by
        unfold notifyOne
        rw [hsubset, if_pos hce]
      have hnot : notify [sub] items st = (0, st, []) := by
        unfold notify
        rw [if_neg hil]
        simp [hnone]
      have hclnil : claimedSelection sub st items = [] := List.isEmpty_iff.mp hce
      refine ⟨by rw [hnot, if_pos hce], by rw [hnot, if_pos hce], ?_, ?_, ?_⟩
      · intro kk
        rw [hnot]
        simp [hclnil]
      · rw [hnot]
        show (notify [sub] items st).1 = 0
        rw [hnot]
      · rw [hnot]
        show (notify [sub] items st).2.2 = []
        rw [hnot]
    · -- a send happens
      have hsome : notifyOne st items sub
          = (recordSent st sub.email (claimedSelection sub st items),
             some (sub.email, claimedSelection sub st items)) := by
        unfold notifyOne
        rw [hsubset, if_neg hce]
      have hnot : notify [sub] items st
          = (1, recordSent st sub.email (claimedSelection sub st items),
             [(sub.email, claimedSelection sub st items)]) := by
        unfold notify
        rw [if_neg hil]
        simp [hsome]
      have hclvalid : ∀ a ∈ claimedSelection sub st items, validKey a = true :=
        fun a ha => hvk a (List.mem_filter.mp ha).1
      have hkeys : ((claimedSelection sub st items).map annKeyN).filterMap (fun k => k)
          = (claimedSelection sub st items).map claimKeyStr :=
        keys_of_valid _ hclvalid
      have hclne : claimedSelection sub st items ≠ [] := by
        intro h
        rw [h] at hce
        exact hce rfl
      have hkeysne : ¬ (((claimedSelection sub st items).map claimKeyStr).isEmpty = true) := by
        cases hc2 : claimedSelection sub st items with
        | nil => exact absurd hc2 hclne
        | cons x xs => simp
      have hunsent : ∀ a ∈ claimedSelection sub st items,
          claimKeyStr a ∉ loadSent st sub.email := by
        intro a ha
        have h2 := (List.mem_filter.mp ha).2
        simp only [Bool.and_eq_true, Bool.not_eq_eq_eq_not, Bool.not_true,
          decide_eq_false_iff_not] at h2
        exact h2.2
      have hlen : ¬ ((loadSent st sub.email
            ++ (claimedSelection sub st items).map claimKeyStr).dedup.length
          = (loadSent st sub.email).dedup.length) := by
        intro heq
        obtain ⟨a0, ha0⟩ : ∃ a, a ∈ claimedSelection sub st items := by
          cases hc2 : claimedSelection sub st items with
          | nil => exact absurd hc2 hclne
          | cons x xs => exact ⟨x, List.mem_cons_self x xs⟩
        exact hunsent a0 ha0
          (mem_of_dedup_length_eq _ _ heq (claimKeyStr a0)
            (List.mem_map_of_mem _ ha0))
      have hrec : recordSent st sub.email (claimedSelection sub st items)
          = storeSent st sub.email
              (sortStrings ((loadSent st sub.email
                ++ (claimedSelection sub st items).map claimKeyStr).dedup)) := by
        unfold recordSent
        rw [hkeys, if_neg hkeysne, if_neg hlen]
      have hload : loadSent
            (recordSent st sub.email (claimedSelection sub st items)) sub.email
          = sortStrings ((loadSent st sub.email
              ++ (claimedSelection sub st items).map claimKeyStr).dedup) := by
        rw [hrec, loadSent_storeSent]
      have hmemiff : ∀ kk, kk ∈ loadSent
            (recordSent st sub.email (claimedSelection sub st items)) sub.email ↔
          (kk ∈ loadSent st sub.email ∨
            ∃ a ∈ claimedSelection sub st items, claimKeyStr a = kk) := by
        intro kk
        rw [hload, mem_sortStrings, List.mem_dedup, List.mem_append]
        constructor
        · rintro (h | h)
          · exact Or.inl h
          · rcases List.mem_map.mp h with ⟨a, ha, hak⟩
            exact Or.inr ⟨a, ha, hak⟩
        · rintro (h | ⟨a, ha, hak⟩)
          · exact Or.inl h
          · exact Or.inr (hak ▸ List.mem_map_of_mem claimKeyStr ha)
      have hcl2 : claimedSelection sub
          (recordSent st sub.email (claimedSelection sub st items)) items = [] := by
        refine List.filter_eq_nil_iff.mpr (fun a ha => ?_)
        by_cases hin : inScope sub a = true
        · have hmem2 : claimKeyStr a ∈ loadSent
              (recordSent st sub.email (claimedSelection sub st items)) sub.email := by
            rw [hmemiff]
            by_cases hsent : claimKeyStr a ∈ loadSent st sub.email
            · exact Or.inl hsent
            · refine Or.inr ⟨a, ?_, rfl⟩
              refine List.mem_filter.mpr ⟨ha, ?_⟩
              simp [hin, hsent]
          simp [hin, hmem2]
        · have hin' : inScope sub a = false := by simpa using hin
          simp [hin']
      have hsubset2 := subset_eq_claimed sub
        (recordSent st sub.email (claimedSelection sub st items)) items hvk
      have hnone2 : notifyOne
            (recordSent st sub.email (claimedSelection sub st items)) items sub
          = (recordSent st sub.email (claimedSelection sub st items), none) := by
        unfold notifyOne
        rw [hsubset2, hcl2]
        rfl
      have hrerun : notify [sub] items
            (recordSent st sub.email (claimedSelection sub st items))
          = (0, recordSent st sub.email (claimedSelection sub st items), []) := by
        unfold notify
        rw [if_neg hil]
        simp [hnone2]
      refine ⟨by rw [hnot, if_neg hce], by rw [hnot, if_neg hce], ?_, ?_, ?_⟩
      · intro kk
        rw [hnot]
        exact hmemiff kk
      · rw [hnot]
        show (notify [sub] items
            (recordSent st sub.email (claimedSelection sub st items))).1 = 0
        rw [hrerun]
      · rw [hnot]
        show (notify [sub] items
            (recordSent st sub.email (claimedSelection sub st items))).2.2 = []
        rw [hrerun]

/-- The subscriber of the C8 scenario, scoped to school "A". -/
def c8SubA : Subscriber := { email := "u@example.com", school_ids := some ["A"] }

/-- A new announcement from school "A". -/
def c8ItemA : Ann :=
  { title := "nuovo avviso", summary := "", body := "", link := "la",
    category := "PNRR Futura", source := "d", school_id := "A",
    school_name := "SA", city := "C", date := some 1, status := "Open",
    tags := [], highlight := true, attachments := [], id := some 1,
    first_seen := some (some 0), last_seen := some (some 0) }

/-- A new announcement from school "B". -/
def c8ItemB : Ann :=
  { title := "altro avviso", summary := "", body := "", link := "lb",
    category := "PNRR Futura", source := "d", school_id := "B",
    school_name := "SB", city := "C", date := some 1, status := "Open",
    tags := [], highlight := true, attachments := [], id := some 2,
    first_seen := some (some 0), last_seen := some (some 0) }

/-- Witness for C8 at the spec's scenario: the subscriber scoped to "A"
gets exactly the item from school "A", once; re-running `notify` with the
same items sends nothing. -/
theorem C8_amended_notify_witness :
    ((notify [c8SubA] [c8ItemA, c8ItemB] []).2.2
      = [("u@example.com", [c8ItemA])]) ∧
    ((notify [c8SubA] [c8ItemA, c8ItemB]
        (notify [c8SubA] [c8ItemA, c8ItemB] []).2.1).1 = 0) := by
  have h := C8_amended_notify c8SubA [c8ItemA, c8ItemB] [] (by decide)
  refine ⟨?_, h.2.2.2.1⟩
  rw [h.1]
  decide

end Alliance

